import Mathlib

/-!
Verification of the Definite Initialization pass
(`src/lib/SILPasses/DefiniteInitialization.cpp`).

The definitions below are a shallow embedding of the data structures and
algorithms of that file: the three-valued lattice `DIKind` and its merge
`mergeKinds`, the two-bits-per-element `AvailabilitySet`, the lowering of
`assign` instructions, the per-release element loop of
`handleConditionalDestroys`, the diagnostic deduplication of
`shouldEmitError` together with the store-use classifier `handleStoreUse`,
and the memoized, cycle-tolerant live-out dataflow (`getLiveOut1`,
`getLiveOutN`, `getLivenessAtInst`) together with the checker constructor.

C++ mutation of member state is modelled by explicit state passing; the
unbounded recursion of the live-out dataflow is modelled with an explicit
fuel parameter (and we prove that fuel `number of blocks + 1` always
suffices, which is the termination argument of the source).
-/

set_option maxHeartbeats 1000000

/-- The three-valued lattice of definite-initialization facts.
Source: `enum class DIKind` (DefiniteInitialization.cpp:125-129).
The third source constructor is named `Partial` there; it is called
`part` here.  The lattice bottom "Unknown" is represented, as in the
source, by `none` at type `Option DIKind`. -/
inductive DIKind where
  | no
  | yes
  | part
deriving DecidableEq, Fintype

/-- The lattice merge operation for two optional DIKinds.
Source: `mergeKinds` (DefiniteInitialization.cpp:133-157), translated
branch for branch. -/
def mergeKinds (OK1 OK2 : Option DIKind) : Option DIKind :=
  match OK1 with
  | none => OK2
  | some K1 =>
    if K1 = DIKind.part then some K1
    else
      match OK2 with
      | none => some K1
      | some K2 => if K1 ≠ K2 then some DIKind.part else some K1

/-- C1: the lattice merge on optional DIKinds is commutative, associative
and idempotent, `none` is a unit, `merge(Yes,No) = Partial`, and
`merge(Partial,x) = Partial` for every defined `x`. -/
theorem mergeKinds_lattice_laws :
    (∀ a b : Option DIKind, mergeKinds a b = mergeKinds b a) ∧
    (∀ a b c : Option DIKind,
      mergeKinds a (mergeKinds b c) = mergeKinds (mergeKinds a b) c) ∧
    (∀ a : Option DIKind, mergeKinds a a = a) ∧
    (∀ x : Option DIKind, mergeKinds none x = x) ∧
    mergeKinds (some DIKind.yes) (some DIKind.no) = some DIKind.part ∧
    (∀ k : DIKind, mergeKinds (some DIKind.part) (some k) = some DIKind.part) := by
  refine ⟨?_, ?_, ?_, ?_, ?_, ?_⟩ <;> decide

/-! ## AvailabilitySet

Source: `class AvailabilitySet` (DefiniteInitialization.cpp:167-253).
The `llvm::SmallBitVector Data` of `2*N` bits is modelled as a total
function `Nat → Bool` together with the element count; the constructor
fills every bit with `true` exactly as `Data.resize(NumElts*2, true)`
does.  Encoding per element (bit `2*i`, bit `2*i+1`):
`(true, true) ↦ Unknown`, `(false, false) ↦ No`, `(false, true) ↦ Yes`,
`(true, false) ↦ Partial`. -/

/-- Functional single-bit update of a bitvector. -/
def updBit (f : Nat → Bool) (i : Nat) (b : Bool) : Nat → Bool :=
  fun j => if j = i then b else f j

structure AvailabilitySet where
  numElts : Nat
  data : Nat → Bool

namespace AvailabilitySet

/-- Constructor `AvailabilitySet(unsigned NumElts)`: all bits true. -/
def init (NumElts : Nat) : AvailabilitySet := ⟨NumElts, fun _ => true⟩

/-- `size()` = `Data.size()/2`. -/
def size (a : AvailabilitySet) : Nat := a.numElts

/-- `empty()` = `Data.empty()`. -/
def emptyB (a : AvailabilitySet) : Bool := a.numElts == 0

/-- `getConditional(Elt)` (DefiniteInitialization.cpp:186-191). -/
def getConditional (a : AvailabilitySet) (Elt : Nat) : Option DIKind :=
  let V1 := a.data (2 * Elt)
  let V2 := a.data (2 * Elt + 1)
  if V1 = V2 then (if V1 then none else some DIKind.no)
  else (if V2 then some DIKind.yes else some DIKind.part)

/-- `get(Elt)` = `getConditional(Elt).getValue()`
(DefiniteInitialization.cpp:182-184).  Reading an Unknown element is out
of contract in the source (`getValue` on `None`); it is modelled with the
arbitrary default `yes`. -/
def get (a : AvailabilitySet) (Elt : Nat) : DIKind :=
  (a.getConditional Elt).getD DIKind.yes

/-- Write the two bits of element `Elt`. -/
def setBits (a : AvailabilitySet) (Elt : Nat) (b1 b2 : Bool) : AvailabilitySet :=
  ⟨a.numElts, updBit (updBit a.data (2 * Elt) b1) (2 * Elt + 1) b2⟩

/-- `set(Elt, DIKind K)` (DefiniteInitialization.cpp:193-199). -/
def setK (a : AvailabilitySet) (Elt : Nat) (K : DIKind) : AvailabilitySet :=
  match K with
  | .no => a.setBits Elt false false
  | .yes => a.setBits Elt false true
  | .part => a.setBits Elt true false

/-- `set(Elt, Optional<DIKind> K)` (DefiniteInitialization.cpp:201-206). -/
def set (a : AvailabilitySet) (Elt : Nat) (K : Option DIKind) : AvailabilitySet :=
  match K with
  | none => a.setBits Elt true true
  | some k => a.setK Elt k

/-- `containsUnknownElements()` (DefiniteInitialization.cpp:210-216). -/
def containsUnknownElements (a : AvailabilitySet) : Bool :=
  (List.range a.size).any fun i => (a.getConditional i).isNone

/-- `isAll(K)` (DefiniteInitialization.cpp:218-225). -/
def isAll (a : AvailabilitySet) (K : DIKind) : Bool :=
  (List.range a.size).all fun i =>
    match a.getConditional i with
    | none => false
    | some k => k == K

/-- `hasAny(K)` (DefiniteInitialization.cpp:227-234). -/
def hasAny (a : AvailabilitySet) (K : DIKind) : Bool :=
  (List.range a.size).any fun i =>
    match a.getConditional i with
    | none => false
    | some k => k == K

def isAllYes (a : AvailabilitySet) : Bool := a.isAll DIKind.yes

def isAllNo (a : AvailabilitySet) : Bool := a.isAll DIKind.no

/-- `changeUnsetElementsTo(K)` (DefiniteInitialization.cpp:241-245). -/
def changeUnsetElementsTo (a : AvailabilitySet) (K : DIKind) : AvailabilitySet :=
  (List.range a.size).foldl
    (fun acc i => if (acc.getConditional i).isNone then acc.setK i K else acc) a

/-- `mergeIn(RHS)` (DefiniteInitialization.cpp:247-252): elementwise
`this = merge(this, RHS)`. -/
def mergeIn (a RHS : AvailabilitySet) : AvailabilitySet :=
  (List.range a.size).foldl
    (fun acc i => acc.set i (mergeKinds (acc.getConditional i) (RHS.getConditional i))) a

end AvailabilitySet

/-! ### Pointwise lemmas for AvailabilitySet -/

lemma AvailabilitySet.getConditional_set_same (a : AvailabilitySet) (i : Nat)
    (k : Option DIKind) : (a.set i k).getConditional i = k := by
  have h1 : ¬(2 * i = 2 * i + 1) := by omega
  have h2 : ¬(2 * i + 1 = 2 * i) := by omega
  rcases k with _ | k
  · simp [set, setBits, getConditional, updBit, h1, h2]
  · cases k <;> simp [set, setK, setBits, getConditional, updBit, h1, h2]

lemma AvailabilitySet.getConditional_set_other (a : AvailabilitySet) (i j : Nat)
    (k : Option DIKind) (h : j ≠ i) :
    (a.set i k).getConditional j = a.getConditional j := by
  have h1 : ¬(2 * j = 2 * i) := by omega
  have h2 : ¬(2 * j = 2 * i + 1) := by omega
  have h3 : ¬(2 * j + 1 = 2 * i) := by omega
  have h4 : ¬(2 * j + 1 = 2 * i + 1) := by omega
  rcases k with _ | k
  · simp [set, setBits, getConditional, updBit, h1, h2, h3, h4]
  · cases k <;> simp [set, setK, setBits, getConditional, updBit, h1, h2, h3, h4]

lemma AvailabilitySet.setK_eq_set (a : AvailabilitySet) (i : Nat) (k : DIKind) :
    a.setK i k = a.set i (some k) := rfl

lemma AvailabilitySet.getConditional_setK_same (a : AvailabilitySet) (i : Nat)
    (k : DIKind) : (a.setK i k).getConditional i = some k := by
  rw [setK_eq_set]; exact getConditional_set_same a i (some k)

lemma AvailabilitySet.getConditional_setK_other (a : AvailabilitySet) (i j : Nat)
    (k : DIKind) (h : j ≠ i) : (a.setK i k).getConditional j = a.getConditional j := by
  rw [setK_eq_set]; exact getConditional_set_other a i j (some k) h

lemma AvailabilitySet.numElts_set (a : AvailabilitySet) (i : Nat) (k : Option DIKind) :
    (a.set i k).numElts = a.numElts := by
  rcases k with _ | k
  · rfl
  · cases k <;> rfl

lemma AvailabilitySet.numElts_setK (a : AvailabilitySet) (i : Nat) (k : DIKind) :
    (a.setK i k).numElts = a.numElts := by
  cases k <;> rfl

lemma AvailabilitySet.getConditional_init (n i : Nat) :
    (AvailabilitySet.init n).getConditional i = none := by
  simp [init, getConditional]

/-- Generic pointwise description of an index-driven fold over an
AvailabilitySet, provided each step only rewrites the element it visits. -/
lemma AvailabilitySet.foldl_step_pointwise
    (step : AvailabilitySet → Nat → AvailabilitySet)
    (g : Nat → Option DIKind → Option DIKind)
    (hstep : ∀ (acc : AvailabilitySet) (i j : Nat),
      (step acc i).getConditional j =
        if j = i then g i (acc.getConditional i) else acc.getConditional j) :
    ∀ (l : List Nat), l.Nodup → ∀ (a : AvailabilitySet) (j : Nat),
      (l.foldl step a).getConditional j =
        if j ∈ l then g j (a.getConditional j) else a.getConditional j := by
  intro l
  induction l with
  | nil => intro _ a j; simp
  | cons i t ih =>
    intro hnd a j
    have hnd' : t.Nodup := (List.nodup_cons.mp hnd).2
    have hni : i ∉ t := (List.nodup_cons.mp hnd).1
    simp only [List.foldl_cons]
    rw [ih hnd']
    by_cases hji : j = i
    · subst hji
      have hjt : j ∉ t := hni
      simp [hjt, hstep]
    · have hmem : (j ∈ i :: t) = (j ∈ t) := by simp [List.mem_cons, hji]
      rw [hstep a i j]
      simp only [if_neg hji, hmem]

lemma AvailabilitySet.numElts_foldl (step : AvailabilitySet → Nat → AvailabilitySet)
    (hstep : ∀ acc i, (step acc i).numElts = acc.numElts) :
    ∀ (l : List Nat) (a : AvailabilitySet), (l.foldl step a).numElts = a.numElts := by
  intro l
  induction l with
  | nil => intro a; rfl
  | cons i t ih => intro a; simp only [List.foldl_cons]; rw [ih, hstep]

lemma AvailabilitySet.getConditional_changeUnset (a : AvailabilitySet) (K : DIKind)
    (j : Nat) :
    (a.changeUnsetElementsTo K).getConditional j =
      if j ∈ List.range a.size then
        (if (a.getConditional j).isNone then some K else a.getConditional j)
      else a.getConditional j := by
  refine AvailabilitySet.foldl_step_pointwise
    (fun acc i => if (acc.getConditional i).isNone then acc.setK i K else acc)
    (fun _ v => if v.isNone then some K else v) ?_ (List.range a.size)
    (List.nodup_range _) a j
  intro acc i j'
  by_cases hcond : (acc.getConditional i).isNone
  · by_cases hj : j' = i
    · subst hj; simp [hcond, getConditional_setK_same]
    · simp [hcond, hj, getConditional_setK_other acc i j' K hj]
  · by_cases hj : j' = i
    · subst hj; simp [hcond]
    · simp [hcond, hj]

lemma AvailabilitySet.numElts_changeUnset (a : AvailabilitySet) (K : DIKind) :
    (a.changeUnsetElementsTo K).numElts = a.numElts := by
  refine AvailabilitySet.numElts_foldl _ ?_ _ _
  intro acc i
  by_cases hcond : (acc.getConditional i).isNone
  · simp [hcond, numElts_setK]
  · simp [hcond]

/-- `containsUnknownElements` is false exactly when every element below
the size is defined. -/
lemma AvailabilitySet.containsUnknown_eq_false_iff (a : AvailabilitySet) :
    a.containsUnknownElements = false ↔
      ∀ j, j < a.numElts → (a.getConditional j).isSome := by
  unfold containsUnknownElements size
  rw [← Bool.not_eq_true, List.any_eq_true]
  constructor
  · intro h j hj
    rw [Option.isSome_iff_ne_none]
    intro hnone
    exact h ⟨j, List.mem_range.mpr hj, by simp [hnone]⟩
  · rintro h ⟨j, hj, hnone⟩
    have hs := h j (List.mem_range.mp hj)
    rw [Option.isNone_iff_eq_none] at hnone
    rw [hnone] at hs
    simp at hs

lemma AvailabilitySet.containsUnknown_changeUnset (a : AvailabilitySet) (K : DIKind) :
    (a.changeUnsetElementsTo K).containsUnknownElements = false := by
  rw [containsUnknown_eq_false_iff]
  intro j hj
  rw [numElts_changeUnset] at hj
  rw [getConditional_changeUnset]
  simp only [List.mem_range, AvailabilitySet.size]
  rw [if_pos hj]
  by_cases hn : (a.getConditional j).isNone
  · simp [hn]
  · rw [if_neg hn]
    simpa [Option.isSome_iff_ne_none, Option.isNone_iff_eq_none] using hn

lemma AvailabilitySet.isAllYes_no_unknown (a : AvailabilitySet)
    (h : a.isAllYes = true) : a.containsUnknownElements = false := by
  rw [containsUnknown_eq_false_iff]
  intro j hj
  unfold isAllYes isAll size at h
  rw [List.all_eq_true] at h
  have := h j (List.mem_range.mpr hj)
  rcases hg : a.getConditional j with _ | k
  · rw [hg] at this; simp at this
  · simp

lemma AvailabilitySet.containsUnknown_setK (a : AvailabilitySet) (i : Nat) (k : DIKind)
    (h : a.containsUnknownElements = false) :
    (a.setK i k).containsUnknownElements = false := by
  rw [containsUnknown_eq_false_iff] at h ⊢
  intro j hj
  rw [numElts_setK] at hj
  by_cases hji : j = i
  · subst hji; rw [getConditional_setK_same]; simp
  · rw [getConditional_setK_other a i j k hji]; exact h j hj

/-! ## Assign lowering (C5)

Source: `LowerAssignInstruction` (DefiniteInitialization.cpp:39-73).
SIL values are modelled as natural-number ids; the builder's emission
sequence is modelled as the list of instructions it creates, in order.
`oldVal` is the SSA id of the result of the `load` of the old
destination value (`IncomingVal`); `B.emitReleaseValueOperation` on that
non-trivially-typed value is modelled as `releaseValue`. -/

inductive AssignLoweredInst where
  | store (src dest : Nat)
  | load (addr result : Nat)
  | releaseValue (v : Nat)
deriving DecidableEq

structure LoweredAssign where
  emitted : List AssignLoweredInst
  deletedOriginal : Bool
deriving DecidableEq

def LowerAssignInstruction (src dest oldVal : Nat)
    (isInitialization destTrivial : Bool) : LoweredAssign :=
  if isInitialization || destTrivial then
    { emitted := [.store src dest], deletedOriginal := true }
  else
    { emitted := [.load dest oldVal, .store src dest, .releaseValue oldVal],
      deletedOriginal := true }

/-- C5: lowering an assign always deletes the original instruction; when
it is an initialization or the destination type is trivially
destructible it emits exactly one plain store, and otherwise it emits a
load of the old destination value, the store of the source, and a
release of the loaded old value, in that order. -/
theorem lowerAssign_replacement :
    ∀ (src dest oldVal : Nat) (isInit destTrivial : Bool),
      (LowerAssignInstruction src dest oldVal isInit destTrivial).deletedOriginal = true
      ∧ (LowerAssignInstruction src dest oldVal isInit destTrivial).emitted =
          (if isInit || destTrivial then [AssignLoweredInst.store src dest]
           else [AssignLoweredInst.load dest oldVal, AssignLoweredInst.store src dest,
                 AssignLoweredInst.releaseValue oldVal]) := by
  intro src dest oldVal isInit destTrivial
  constructor <;> cases isInit <;> cases destTrivial <;> rfl

/-! ## Conditional destroys (C6)

Source: the per-release element loop of `handleConditionalDestroys`
(DefiniteInitialization.cpp:1420-1485).  The IR the builder emits is
modelled as a list of events: `loadBitmap` is the lazy
`B.createLoad(Loc, ControlVariableAddr)` of the liveness bitmap (guarded
by `LoadedMask`, so at most once per release), `destroyElt e` is the
unconditional `emitDestroyAddr` of element `e`'s address at the release
point, and `condDestroyElt e` is the CFG diamond (`InsertCFGDiamond`)
whose condition is bit `e` of the loaded bitmap (shifted right by `e`
and truncated to one bit) and whose true block destroys element `e`. -/

inductive DestroyEvent where
  | loadBitmap
  | destroyElt (elt : Nat)
  | condDestroyElt (elt : Nat)
deriving DecidableEq

def condDestroyEventsGo (avail : Nat → DIKind) : List Nat → Bool → List DestroyEvent
  | [], _ => []
  | e :: rest, loaded =>
    match avail e with
    | .no => condDestroyEventsGo avail rest loaded
    | .yes => .destroyElt e :: condDestroyEventsGo avail rest loaded
    | .part =>
      (if loaded then [] else [.loadBitmap]) ++
        (.condDestroyElt e :: condDestroyEventsGo avail rest true)

/-- One release's element loop: elements `0 ..< n` in order, with the
bitmap not yet loaded. -/
def handleConditionalDestroysRelease (avail : Nat → DIKind) (n : Nat) :
    List DestroyEvent :=
  condDestroyEventsGo avail (List.range n) false

lemma mem_condDestroyGo_destroy (avail : Nat → DIKind) (e : Nat) :
    ∀ (l : List Nat) (loaded : Bool),
      (DestroyEvent.destroyElt e ∈ condDestroyEventsGo avail l loaded ↔
        (e ∈ l ∧ avail e = DIKind.yes)) := by
  intro l
  induction l with
  | nil => intro loaded; simp [condDestroyEventsGo]
  | cons i t ih =>
    intro loaded
    have hgo := ih true
    rcases h : avail i with _ | _ | _
    · rw [condDestroyEventsGo]
      simp only [h]
      rw [ih loaded, List.mem_cons]
      by_cases he : e = i
      · subst he; simp [h]
      · simp [he]
    · rw [condDestroyEventsGo]
      simp only [h, List.mem_cons]
      rw [ih loaded]
      by_cases he : e = i
      · subst he; simp [h]
      · simp [he]
    · rw [condDestroyEventsGo]
      simp only [h]
      by_cases he : e = i
      · subst he
        rcases loaded with _ | _ <;> simp [hgo, h]
      · rcases loaded with _ | _ <;> simp [hgo, he]

lemma mem_condDestroyGo_cond (avail : Nat → DIKind) (e : Nat) :
    ∀ (l : List Nat) (loaded : Bool),
      (DestroyEvent.condDestroyElt e ∈ condDestroyEventsGo avail l loaded ↔
        (e ∈ l ∧ avail e = DIKind.part)) := by
  intro l
  induction l with
  | nil => intro loaded; simp [condDestroyEventsGo]
  | cons i t ih =>
    intro loaded
    have hgo := ih true
    rcases h : avail i with _ | _ | _
    · rw [condDestroyEventsGo]
      simp only [h]
      rw [ih loaded, List.mem_cons]
      by_cases he : e = i
      · subst he; simp [h]
      · simp [he]
    · rw [condDestroyEventsGo]
      simp only [h, List.mem_cons]
      rw [ih loaded]
      by_cases he : e = i
      · subst he; simp [h]
      · simp [he]
    · rw [condDestroyEventsGo]
      simp only [h]
      by_cases he : e = i
      · subst he
        rcases loaded with _ | _ <;> simp [hgo, h]
      · rcases loaded with _ | _ <;> simp [hgo, he]

lemma count_condDestroyGo_load_true (avail : Nat → DIKind) :
    ∀ (l : List Nat),
      (condDestroyEventsGo avail l true).count DestroyEvent.loadBitmap = 0 := by
  intro l
  induction l with
  | nil => simp [condDestroyEventsGo]
  | cons i t ih =>
    rcases h : avail i with _ | _ | _ <;>
      simp [condDestroyEventsGo, h, ih, List.count_cons]

lemma count_condDestroyGo_load_le_one (avail : Nat → DIKind) :
    ∀ (l : List Nat) (loaded : Bool),
      (condDestroyEventsGo avail l loaded).count DestroyEvent.loadBitmap ≤ 1 := by
  intro l
  induction l with
  | nil => intro loaded; simp [condDestroyEventsGo]
  | cons i t ih =>
    intro loaded
    rcases h : avail i with _ | _ | _
    · simpa [condDestroyEventsGo, h] using ih loaded
    · simpa [condDestroyEventsGo, h, List.count_cons] using ih loaded
    · rcases loaded with _ | _ <;>
        simp [condDestroyEventsGo, h, List.count_append, List.count_cons,
          count_condDestroyGo_load_true]

lemma mem_condDestroyGo_load (avail : Nat → DIKind) :
    ∀ (l : List Nat),
      (DestroyEvent.loadBitmap ∈ condDestroyEventsGo avail l false ↔
        ∃ i, i ∈ l ∧ avail i = DIKind.part) := by
  have htrue : ∀ (l : List Nat),
      DestroyEvent.loadBitmap ∉ condDestroyEventsGo avail l true := by
    intro l hmem
    have hc := count_condDestroyGo_load_true avail l
    rw [← List.count_pos_iff] at hmem
    omega
  intro l
  induction l with
  | nil => simp [condDestroyEventsGo]
  | cons i t ih =>
    rcases h : avail i with _ | _ | _
    · rw [condDestroyEventsGo]
      simp only [h]
      rw [ih]
      constructor
      · rintro ⟨j, hj, hp⟩; exact ⟨j, List.mem_cons.mpr (Or.inr hj), hp⟩
      · rintro ⟨j, hj, hp⟩
        rcases List.mem_cons.mp hj with rfl | hjt
        · rw [h] at hp; cases hp
        · exact ⟨j, hjt, hp⟩
    · rw [condDestroyEventsGo]
      simp only [h, List.mem_cons]
      constructor
      · rintro (heq | hmem)
        · cases heq
        · obtain ⟨j, hj, hp⟩ := ih.mp hmem
          exact ⟨j, Or.inr hj, hp⟩
      · rintro ⟨j, hj, hp⟩
        rcases hj with rfl | hjt
        · rw [h] at hp; cases hp
        · exact Or.inr (ih.mpr ⟨j, hjt, hp⟩)
    · rw [condDestroyEventsGo]
      simp only [h]
      constructor
      · intro _
        exact ⟨i, List.mem_cons.mpr (Or.inl rfl), h⟩
      · intro _
        simp

/-- C6: for every release recorded as a conditional destroy, the
per-element rewrite emits, for each element `e` of the memory object:
nothing when its availability is `No`; an unconditional destroy of the
element address at the release point exactly when its availability is
`Yes`; a CFG diamond testing bit `e` of the bitmap whose true branch
destroys `e` exactly when its availability is `Partial`; and the
liveness bitmap is loaded at most once per release, and exactly when
some element is `Partial`. -/
theorem conditionalDestroy_per_element :
    ∀ (avail : Nat → DIKind) (n e : Nat),
      (DestroyEvent.destroyElt e ∈ handleConditionalDestroysRelease avail n ↔
        (e < n ∧ avail e = DIKind.yes))
      ∧ (DestroyEvent.condDestroyElt e ∈ handleConditionalDestroysRelease avail n ↔
        (e < n ∧ avail e = DIKind.part))
      ∧ ((handleConditionalDestroysRelease avail n).count DestroyEvent.loadBitmap ≤ 1)
      ∧ (DestroyEvent.loadBitmap ∈ handleConditionalDestroysRelease avail n ↔
        ∃ i, i < n ∧ avail i = DIKind.part) := by
  intro avail n e
  refine ⟨?_, ?_, ?_, ?_⟩
  · rw [handleConditionalDestroysRelease, mem_condDestroyGo_destroy, List.mem_range]
  · rw [handleConditionalDestroysRelease, mem_condDestroyGo_cond, List.mem_range]
  · exact count_condDestroyGo_load_le_one avail (List.range n) false
  · rw [handleConditionalDestroysRelease, mem_condDestroyGo_load]
    constructor
    · rintro ⟨i, hi, hp⟩; exact ⟨i, List.mem_range.mp hi, hp⟩
    · rintro ⟨i, hi, hp⟩; exact ⟨i, List.mem_range.mpr hi, hp⟩

/-! ## AvailabilitySet encoding round-trip (C9) -/

/-- C9: the two-bits-per-element encoding round-trips: writing any
optional DIKind at index `i < N` reads back exactly, leaves every other
element unchanged, and `containsUnknownElements` holds iff some element
below the size is Unknown. -/
theorem availabilitySet_roundtrip :
    ∀ (a : AvailabilitySet) (i : Nat) (k : Option DIKind), i < a.numElts →
      ((a.set i k).getConditional i = k
        ∧ (∀ j, j ≠ i → (a.set i k).getConditional j = a.getConditional j)
        ∧ (a.set i k).numElts = a.numElts)
      ∧ (a.containsUnknownElements = true ↔
          ∃ j, j < a.numElts ∧ a.getConditional j = none) := by
  intro a i k _
  refine ⟨⟨a.getConditional_set_same i k,
           fun j hj => a.getConditional_set_other i j k hj,
           a.numElts_set i k⟩, ?_⟩
  unfold AvailabilitySet.containsUnknownElements AvailabilitySet.size
  rw [List.any_eq_true]
  constructor
  · rintro ⟨j, hj, hn⟩
    exact ⟨j, List.mem_range.mp hj, by simpa [Option.isNone_iff_eq_none] using hn⟩
  · rintro ⟨j, hj, hn⟩
    exact ⟨j, List.mem_range.mpr hj, by simp [hn]⟩

theorem availabilitySet_roundtrip_witness :
    (0 : Nat) < (AvailabilitySet.init 2).numElts ∧
      (((AvailabilitySet.init 2).set 0 (some DIKind.part)).getConditional 0 =
        some DIKind.part) :=
  ⟨by decide,
   ((availabilitySet_roundtrip (AvailabilitySet.init 2) 0 (some DIKind.part)
      (by decide)).1).1⟩

/-! ## Diagnostics and the store-use classifier (C2, C7, C8)

Sources: `shouldEmitError` (DefiniteInitialization.cpp:479-495),
`diagnoseInitError` (566-596), `handleStoreUse` (718-796), and the use
loop plus the post-analysis gate of `doIt` (598-716).

The diagnostic engine is modelled as a list of `(identifier, location)`
pairs; source locations are natural numbers.  `reachable` on a use
models `isBlockIsReachableFromEntry` for the use's block.  The liveness
of the use's element window (the result of `getLivenessAtInst` for the
window, which is always defined by C3) and the per-element `let`-ness
(`DIMemoryObjectInfo::isElementLetProperty`) and type triviality are
carried as data on the use.

Modelled from the spec: `DIMemoryUse::onlyTouchesTrivialElements`
(declared in DIMemoryUseCollector.h, which is not part of the sources)
is modelled, following the spec's "If the window is entirely
trivial-typed", as: every element of the window is trivially typed. -/

inductive DiagID where
  | structNotFullyInitialized
  | immutablePropertyAlreadyInitialized
  | initialValueProvidedInLetDecl
  | variableDefinedHere
deriving DecidableEq

structure Diagnostic where
  id : DiagID
  loc : Nat
deriving DecidableEq

structure CheckerDiagState where
  emittedErrorLocs : List Nat
  diags : List Diagnostic
  hasConditionalInitAssignOrDestroys : Bool
deriving DecidableEq

def initialDiagState : CheckerDiagState := ⟨[], [], false⟩

/-- `shouldEmitError` (DefiniteInitialization.cpp:479-495): refuse in
unreachable blocks, swallow a second error at an already-reported
location, otherwise record the location and allow the error. -/
def shouldEmitError (st : CheckerDiagState) (reachable : Bool) (loc : Nat) :
    Bool × CheckerDiagState :=
  if !reachable then (false, st)
  else if loc ∈ st.emittedErrorLocs then (false, st)
  else (true, { st with emittedErrorLocs := st.emittedErrorLocs ++ [loc] })

/-- One element of a use's window, with the data `handleStoreUse` reads
about it. `letInitLoc` is the location of the initial value in the `let`
declaration when `Var->getParentPattern()->hasInit()` holds. -/
structure WindowElt where
  live : DIKind
  isLet : Bool
  isTrivial : Bool
  letInitLoc : Option Nat
deriving DecidableEq

/-- The two use kinds dispatched to `handleStoreUse` by `doIt`
(DefiniteInitialization.cpp:624-637). -/
inductive StoreUseKind where
  | initOrAssign
  | partialStore
deriving DecidableEq

structure StoreUse where
  kind : StoreUseKind
  loc : Nat
  reachable : Bool
  window : List WindowElt
deriving DecidableEq

/-- What `handleStoreUse` did to the use: emitted a diagnostic and
returned; reclassified it as `Initialization` and lowered it
(`updateInstructionForInitState`); reclassified it as `Assign` and
lowered it; or deferred it for `handleConditionalInitAssign`. -/
inductive StoreOutcome where
  | diagnosed
  | loweredInit
  | loweredAssign
  | deferred
deriving DecidableEq

/-- `diagnoseInitError` (DefiniteInitialization.cpp:566-596), for a use
whose location is valid: gated by `shouldEmitError`; emits the main
diagnostic at the use location, then a `variable_defined_here` note at
the memory object's location unless `TheMemory.isAnyInitSelf()`.  (The
symbolic element name passed to the diagnostic is not modelled.) -/
def diagnoseInitError (isAnyInitSelf : Bool) (memLoc : Nat) (st : CheckerDiagState)
    (u : StoreUse) (id : DiagID) : CheckerDiagState :=
  match shouldEmitError st u.reachable u.loc with
  | (false, st') => st'
  | (true, st') =>
    { st' with diags := st'.diags ++ [⟨id, u.loc⟩] ++
        (if !isAnyInitSelf then [⟨DiagID.variableDefinedHere, memLoc⟩] else []) }

/-- The `let`-overwrite scan of `handleStoreUse`
(DefiniteInitialization.cpp:750-765): the first window element whose
liveness is not `No` and which is a `let` property. -/
def findLetViolation : List WindowElt → Option WindowElt
  | [] => none
  | e :: rest =>
    if e.live ≠ DIKind.no ∧ e.isLet = true then some e else findLetViolation rest

/-- `handleStoreUse` (DefiniteInitialization.cpp:718-796), with the
window liveness already computed.  Note that the
`immutable_property_already_initialized` diagnostic (and its note) are
emitted directly, without going through `shouldEmitError`. -/
def handleStoreUse (isAnyInitSelf : Bool) (memLoc : Nat) (st : CheckerDiagState)
    (u : StoreUse) : CheckerDiagState × StoreOutcome :=
  let isFullyInitialized := u.window.all fun e => e.live == DIKind.yes
  let isFullyUninitialized := u.window.all fun e => e.live == DIKind.no
  if u.kind = StoreUseKind.partialStore ∧ isFullyInitialized = false then
    (diagnoseInitError isAnyInitSelf memLoc st u DiagID.structNotFullyInitialized,
     StoreOutcome.diagnosed)
  else
    match (if u.kind = StoreUseKind.partialStore ∨ isFullyUninitialized = false
           then findLetViolation u.window else none) with
    | some e =>
      ({ st with diags := st.diags
            ++ [⟨DiagID.immutablePropertyAlreadyInitialized, u.loc⟩]
            ++ (match e.letInitLoc with
                | some declLoc => [⟨DiagID.initialValueProvidedInLetDecl, declLoc⟩]
                | none => []) }, StoreOutcome.diagnosed)
    | none =>
      if isFullyUninitialized then (st, StoreOutcome.loweredInit)
      else if isFullyInitialized then (st, StoreOutcome.loweredAssign)
      else
        ({ st with hasConditionalInitAssignOrDestroys :=
             st.hasConditionalInitAssignOrDestroys ||
               u.window.any fun e => !e.isTrivial },
         StoreOutcome.deferred)

/-- The classification loop of `doIt` restricted to store uses
(DefiniteInitialization.cpp:605-694), in use-list order. -/
def processStoreUses (isAnyInitSelf : Bool) (memLoc : Nat) :
    CheckerDiagState → List StoreUse → CheckerDiagState
  | st, [] => st
  | st, u :: rest =>
    processStoreUses isAnyInitSelf memLoc (handleStoreUse isAnyInitSelf memLoc st u).1 rest

structure DoItResult where
  finalState : CheckerDiagState
  rewritesProceed : Bool
deriving DecidableEq

/-- The `doIt` fragment for store uses plus the post-analysis gate
(DefiniteInitialization.cpp:696-716): after classifying the uses, the
release processing and conditional rewrites run only when
`EmittedErrorLocs` is empty. -/
def doItStoreUses (isAnyInitSelf : Bool) (memLoc : Nat) (uses : List StoreUse) :
    DoItResult :=
  let st := processStoreUses isAnyInitSelf memLoc initialDiagState uses
  { finalState := st, rewritesProceed := st.emittedErrorLocs.isEmpty }

lemma findLetViolation_eq_none :
    ∀ (l : List WindowElt), (∀ e ∈ l, e.live = DIKind.no ∨ e.isLet = false) →
      findLetViolation l = none := by
  intro l
  induction l with
  | nil => intro _; rfl
  | cons e t ih =>
    intro h
    rw [findLetViolation]
    rcases h e (List.mem_cons.mpr (Or.inl rfl)) with hl | hl
    · rw [if_neg fun hc => hc.1 hl]
      exact ih fun x hx => h x (List.mem_cons.mpr (Or.inr hx))
    · rw [if_neg (by intro hc; rw [hl] at hc; exact absurd hc.2 (by decide))]
      exact ih fun x hx => h x (List.mem_cons.mpr (Or.inr hx))

/-- The locations of diagnostics that went through `shouldEmitError` in
the store-use model (`struct_not_fully_initialized` is the only one). -/
def guardedLocs (ds : List Diagnostic) : List Nat :=
  (ds.filter fun d => d.id == DiagID.structNotFullyInitialized).map Diagnostic.loc

lemma guardedLocs_append (ds es : List Diagnostic) :
    guardedLocs (ds ++ es) = guardedLocs ds ++ guardedLocs es := by
  simp [guardedLocs]

/-- Invariant tying the guarded diagnostics to `EmittedErrorLocs`. -/
def DiagInv (st : CheckerDiagState) : Prop :=
  (guardedLocs st.diags).Nodup ∧ ∀ l ∈ guardedLocs st.diags, l ∈ st.emittedErrorLocs

lemma shouldEmitError_spec (st : CheckerDiagState) (r : Bool) (loc : Nat) :
    (shouldEmitError st r loc = (false, st) ∧ (r = false ∨ loc ∈ st.emittedErrorLocs)) ∨
    (shouldEmitError st r loc =
        (true, { st with emittedErrorLocs := st.emittedErrorLocs ++ [loc] }) ∧
      r = true ∧ loc ∉ st.emittedErrorLocs) := by
  unfold shouldEmitError
  rcases r with _ | _
  · simp
  · by_cases hm : loc ∈ st.emittedErrorLocs
    · simp [hm]
    · simp [hm]

lemma diagInv_diagnoseInitError (a : Bool) (m : Nat) (st : CheckerDiagState)
    (u : StoreUse) (h : DiagInv st) :
    DiagInv (diagnoseInitError a m st u DiagID.structNotFullyInitialized) := by
  rcases shouldEmitError_spec st u.reachable u.loc with ⟨heq, _⟩ | ⟨heq, _, hmem⟩
  · unfold diagnoseInitError
    rw [heq]
    exact h
  · unfold diagnoseInitError
    rw [heq]
    obtain ⟨hnd, hsub⟩ := h
    have hnguard : u.loc ∉ guardedLocs st.diags := fun hm => hmem (hsub _ hm)
    have hg : guardedLocs (st.diags ++ [⟨DiagID.structNotFullyInitialized, u.loc⟩] ++
        (if !a then [⟨DiagID.variableDefinedHere, m⟩] else [])) =
        guardedLocs st.diags ++ [u.loc] := by
      rw [guardedLocs_append, guardedLocs_append]
      rcases a with _ | _ <;> simp [guardedLocs]
    constructor
    · show (guardedLocs (st.diags ++ _ ++ _)).Nodup
      rw [hg]
      refine List.Nodup.append hnd (List.nodup_singleton _) ?_
      intro x hx hx'
      rcases List.mem_singleton.mp hx' with rfl
      exact hnguard hx
    · intro l hl
      rw [hg] at hl
      show l ∈ st.emittedErrorLocs ++ [u.loc]
      rcases List.mem_append.mp hl with hl | hl
      · exact List.mem_append_left _ (hsub _ hl)
      · exact List.mem_append_right _ hl

lemma diagInv_handleStoreUse (a : Bool) (m : Nat) (st : CheckerDiagState)
    (u : StoreUse) (h : DiagInv st) :
    DiagInv (handleStoreUse a m st u).1 := by
  unfold handleStoreUse
  dsimp only
  split
  · exact diagInv_diagnoseInitError a m st u h
  · split
    · rename_i e _
      obtain ⟨hnd, hsub⟩ := h
      have hg : guardedLocs (st.diags
          ++ [⟨DiagID.immutablePropertyAlreadyInitialized, u.loc⟩]
          ++ (match e.letInitLoc with
              | some declLoc => [⟨DiagID.initialValueProvidedInLetDecl, declLoc⟩]
              | none => [])) = guardedLocs st.diags := by
        rw [guardedLocs_append, guardedLocs_append]
        rcases e.letInitLoc with _ | d <;> simp [guardedLocs]
      constructor
      · show (guardedLocs (st.diags ++ _ ++ _)).Nodup
        rw [hg]; exact hnd
      · intro l hl
        rw [hg] at hl
        exact hsub _ hl
    · split
      · exact h
      · split
        · exact h
        · exact h

lemma diagInv_processStoreUses (a : Bool) (m : Nat) :
    ∀ (uses : List StoreUse) (st : CheckerDiagState), DiagInv st →
      DiagInv (processStoreUses a m st uses) := by
  intro uses
  induction uses with
  | nil => intro st h; exact h
  | cons u t ih =>
    intro st h
    exact ih _ (diagInv_handleStoreUse a m st u h)

lemma diagInv_initial : DiagInv initialDiagState := by
  constructor
  · exact List.nodup_nil
  · intro l hl
    simp [guardedLocs, initialDiagState] at hl

/-- C2 counterexample: an `InitOrAssign` use whose one-element window is
fully `Yes` but whose element is a `let` property is *not* reclassified
as `Assign` and lowered; `handleStoreUse` instead emits the
`immutable_property_already_initialized` diagnostic and returns. -/
theorem initOrAssign_allYes_let_counterexample :
    (handleStoreUse false 0 initialDiagState
        ⟨StoreUseKind.initOrAssign, 5, true, [⟨DIKind.yes, true, false, none⟩]⟩).2 =
      StoreOutcome.diagnosed ∧
    (handleStoreUse false 0 initialDiagState
        ⟨StoreUseKind.initOrAssign, 5, true, [⟨DIKind.yes, true, false, none⟩]⟩).2 ≠
      StoreOutcome.loweredAssign := by
  constructor <;> decide

/-- C2 (amended): for an `InitOrAssign` use reaching `handleStoreUse`
whose window is non-empty and contains no `let` element of non-`No`
liveness, the classification is: fully-`Yes` window means the use is
reclassified `Assign` and lowered, fully-`No` means reclassified
`Initialization` and lowered, and a mixed window is deferred, setting
`HasConditionalInitAssignOrDestroys` exactly when the use touches some
non-trivially-typed element. -/
theorem handleStoreUse_initOrAssign_classification :
    ∀ (isAnyInitSelf : Bool) (memLoc : Nat) (st : CheckerDiagState) (u : StoreUse),
      u.kind = StoreUseKind.initOrAssign →
      u.window ≠ [] →
      (∀ e ∈ u.window, e.live = DIKind.no ∨ e.isLet = false) →
      ((∀ e ∈ u.window, e.live = DIKind.yes) →
        handleStoreUse isAnyInitSelf memLoc st u = (st, StoreOutcome.loweredAssign)) ∧
      ((∀ e ∈ u.window, e.live = DIKind.no) →
        handleStoreUse isAnyInitSelf memLoc st u = (st, StoreOutcome.loweredInit)) ∧
      ((¬ ∀ e ∈ u.window, e.live = DIKind.yes) → (¬ ∀ e ∈ u.window, e.live = DIKind.no) →
        handleStoreUse isAnyInitSelf memLoc st u =
          ({ st with hasConditionalInitAssignOrDestroys :=
               st.hasConditionalInitAssignOrDestroys ||
                 u.window.any fun e => !e.isTrivial }, StoreOutcome.deferred)) := by
  intro a m st u hkind hne hnl
  have hflv := findLetViolation_eq_none u.window hnl
  have hkp : ¬(u.kind = StoreUseKind.partialStore) := by
    rw [hkind]; intro hc; cases hc
  refine ⟨?_, ?_, ?_⟩
  · intro hyes
    obtain ⟨e0, he0⟩ := List.exists_mem_of_ne_nil _ hne
    have h1 : (u.window.all fun e => e.live == DIKind.yes) = true := by
      rw [List.all_eq_true]; intro e he; simp [hyes e he]
    have h0 : (u.window.all fun e => e.live == DIKind.no) = false := by
      rw [Bool.eq_false_iff]
      intro hall
      rw [List.all_eq_true] at hall
      have h2 := hall e0 he0
      simp [hyes e0 he0] at h2
    simp [handleStoreUse, h1, h0, hflv, hkp]
  · intro hno
    have h0 : (u.window.all fun e => e.live == DIKind.no) = true := by
      rw [List.all_eq_true]; intro e he; simp [hno e he]
    simp [handleStoreUse, h0, hkp]
  · intro hnyes hnno
    have h1 : (u.window.all fun e => e.live == DIKind.yes) = false := by
      rw [Bool.eq_false_iff]
      intro hall
      rw [List.all_eq_true] at hall
      exact hnyes fun e he => by simpa using hall e he
    have h0 : (u.window.all fun e => e.live == DIKind.no) = false := by
      rw [Bool.eq_false_iff]
      intro hall
      rw [List.all_eq_true] at hall
      exact hnno fun e he => by simpa using hall e he
    simp [handleStoreUse, h1, h0, hflv, hkp]

theorem handleStoreUse_initOrAssign_classification_witness :
    (handleStoreUse true 0 initialDiagState
        ⟨StoreUseKind.initOrAssign, 3, true, [⟨DIKind.yes, false, false, none⟩]⟩) =
      (initialDiagState, StoreOutcome.loweredAssign) :=
  (handleStoreUse_initOrAssign_classification true 0 initialDiagState
      ⟨StoreUseKind.initOrAssign, 3, true, [⟨DIKind.yes, false, false, none⟩]⟩
      rfl (by decide) (by decide)).1 (by decide)

/-- C7 counterexample: one run of the store-use classifier over two
unambiguously bad partial stores, at source locations 5 and 7, of a
local variable declared at location 1, emits four diagnostics of which
the two `variable_defined_here` notes share location 1 — so within one
checker run two emitted diagnostics can have the same source location. -/
theorem duplicate_diagnostic_location_counterexample :
    ¬ List.Pairwise (fun d1 d2 : Diagnostic => d1.loc ≠ d2.loc)
        (doItStoreUses false 1
          [⟨StoreUseKind.partialStore, 5, true, [⟨DIKind.no, false, false, none⟩]⟩,
           ⟨StoreUseKind.partialStore, 7, true, [⟨DIKind.no, false, false, none⟩]⟩]).finalState.diags := by
  decide

/-- C7 (amended): diagnostics emitted through `shouldEmitError` are
idempotent per source location — once `shouldEmitError` accepts a
location, a later call for the same location is refused, and in any run
of the store-use classifier the locations of the
`shouldEmitError`-guarded diagnostics are pairwise distinct.
Diagnostics emitted without consulting `shouldEmitError` (the
`immutable_property` errors and the notes) can repeat a location. -/
theorem shouldEmitError_dedup_guarded_locs :
    (∀ (st : CheckerDiagState) (r r' : Bool) (loc : Nat),
        (shouldEmitError st r loc).1 = true →
        (shouldEmitError (shouldEmitError st r loc).2 r' loc).1 = false) ∧
    (∀ (isAnyInitSelf : Bool) (memLoc : Nat) (uses : List StoreUse),
        (guardedLocs (doItStoreUses isAnyInitSelf memLoc uses).finalState.diags).Nodup) := by
  constructor
  · intro st r r' loc h1
    rcases shouldEmitError_spec st r loc with ⟨heq, _⟩ | ⟨heq, _, _⟩
    · rw [heq] at h1; cases h1
    · rw [heq]
      unfold shouldEmitError
      rcases r' with _ | _
      · simp
      · simp
  · intro a m uses
    exact (diagInv_processStoreUses a m uses initialDiagState diagInv_initial).1

theorem shouldEmitError_dedup_guarded_locs_witness :
    (shouldEmitError initialDiagState true 7).1 = true ∧
      (shouldEmitError (shouldEmitError initialDiagState true 7).2 true 7).1 = false :=
  ⟨by decide,
   shouldEmitError_dedup_guarded_locs.1 initialDiagState true true 7 (by decide)⟩

/-- C8 counterexample: a run that emits a user error — the
`immutable_property_already_initialized` diagnostic, which bypasses
`shouldEmitError` — but still proceeds to the post-analysis rewrites,
because `EmittedErrorLocs` stayed empty. -/
theorem unrecorded_error_no_skip_counterexample :
    (doItStoreUses false 0
        [⟨StoreUseKind.initOrAssign, 5, true, [⟨DIKind.yes, true, false, none⟩]⟩]).finalState.diags ≠ []
    ∧ (doItStoreUses false 0
        [⟨StoreUseKind.initOrAssign, 5, true, [⟨DIKind.yes, true, false, none⟩]⟩]).rewritesProceed = true := by
  constructor <;> decide

/-- C8 (amended): if a diagnostic recorded through `shouldEmitError`
(here: `struct_not_fully_initialized`) is emitted while classifying the
uses, the post-analysis rewrites are skipped; errors emitted without
`shouldEmitError` do not force the skip. -/
theorem recorded_error_skips_rewrites :
    ∀ (isAnyInitSelf : Bool) (memLoc : Nat) (uses : List StoreUse),
      (∃ d ∈ (doItStoreUses isAnyInitSelf memLoc uses).finalState.diags,
          d.id = DiagID.structNotFullyInitialized) →
      (doItStoreUses isAnyInitSelf memLoc uses).rewritesProceed = false := by
  intro a m uses hd
  obtain ⟨d, hdm, hdid⟩ := hd
  have hinv := diagInv_processStoreUses a m uses initialDiagState diagInv_initial
  have hloc : d.loc ∈ guardedLocs (processStoreUses a m initialDiagState uses).diags := by
    unfold guardedLocs
    refine List.mem_map.mpr ⟨d, ?_, rfl⟩
    refine List.mem_filter.mpr ⟨hdm, ?_⟩
    simp [hdid]
  have hmem := hinv.2 _ hloc
  show (processStoreUses a m initialDiagState uses).emittedErrorLocs.isEmpty = false
  rcases hlist : (processStoreUses a m initialDiagState uses).emittedErrorLocs with _ | ⟨x, xs⟩
  · rw [hlist] at hmem
    exact absurd hmem (List.not_mem_nil _)
  · rfl

theorem recorded_error_skips_rewrites_witness :
    (doItStoreUses false 1
        [⟨StoreUseKind.partialStore, 5, true, [⟨DIKind.no, false, false, none⟩]⟩]).rewritesProceed
      = false :=
  recorded_error_skips_rewrites false 1
    [⟨StoreUseKind.partialStore, 5, true, [⟨DIKind.no, false, false, none⟩]⟩]
    ⟨⟨DiagID.structNotFullyInitialized, 5⟩, by decide, rfl⟩

/-! ## The live-out dataflow (C3, C4, C10)

Sources: `LiveOutBlockState` (DefiniteInitialization.cpp:261-321), the
checker constructor (402-449), `getLiveOut1`/`getPredsLiveOut1`
(1521-1580), `getLiveOutN`/`getPredsLiveOutN` (1585-1642) and
`getLivenessAtInst` (1648-1750).

Basic blocks are `Fin nb`; the CFG provides each block's predecessor
list; the `PerBlockInfo` dense map is a total function from blocks to
`LiveOutBlockState` (the map inserts a default-initialized state on
first access, so a total function with that default is the same thing).

`getLiveOut1` and `getLiveOutN` are the same recursion over the
predecessor graph, differing only in the accumulated value (a single
`Optional<DIKind>` merged with `mergeKinds` versus an `AvailabilitySet`
merged with `mergeIn`), the cached and in-progress case results, the
single-element local-Yes shortcut, and the finalization that decides
whether to cache.  They are realized as two instances of one generic
fueled recursion, `liveOutBlock`; the C++ recursion has no fuel, and C4
proves that fuel `nb + 1` always suffices (the call stack only ever
holds blocks in distinct `IsComputingLiveOut` states). -/

inductive LiveOutStateTy where
  | IsUnknown
  | IsComputingLiveOut
  | IsKnown
deriving DecidableEq

/-- `LiveOutBlockState` (DefiniteInitialization.cpp:261-321). -/
structure LiveOutBlockState where
  HasNonLoadUse : Bool
  Availability : AvailabilitySet
  LOState : LiveOutStateTy

abbrev BlockMap (nb : Nat) := Fin nb → LiveOutBlockState

structure DataflowCFG (nb : Nat) where
  preds : Fin nb → List (Fin nb)

/-- The parts in which the single-element and the N-element live-out
recursions differ. -/
structure LiveOutAlg (A : Type) where
  onKnown : LiveOutBlockState → A
  onComputing : A
  early : LiveOutBlockState → Option (LiveOutBlockState × A)
  initAcc : LiveOutBlockState → A
  mergeA : A → A → A
  finalize : LiveOutBlockState → A → LiveOutBlockState × A

/-- `getPredsLiveOut1` / `getPredsLiveOutN`
(DefiniteInitialization.cpp:1574-1580, 1636-1642): merge the live-out of
every predecessor into the accumulator, threading the block-state map
and propagating fuel exhaustion. -/
def foldPreds {nb : Nat} {A : Type}
    (f : BlockMap nb → Fin nb → Option (BlockMap nb × A))
    (mergeA : A → A → A) :
    BlockMap nb → List (Fin nb) → A → Option (BlockMap nb × A)
  | st, [], acc => some (st, acc)
  | st, p :: rest, acc =>
    match f st p with
    | none => none
    | some (st', r) => foldPreds f mergeA st' rest (mergeA acc r)

/-- The shared recursion of `getLiveOut1` (DefiniteInitialization.cpp:
1521-1572) and `getLiveOutN` (1585-1634): return the cached value for an
`IsKnown` block; contribute nothing for an `IsComputingLiveOut` block
(cycle break); otherwise run the single-element local shortcut if there
is one, or mark the block `IsComputingLiveOut`, merge the live-outs of
the predecessors, and finalize (cache as `IsKnown`, or revert to
`IsUnknown` when the result still has unknowns). -/
def liveOutBlock {nb : Nat} {A : Type} (alg : LiveOutAlg A) (cfg : DataflowCFG nb) :
    Nat → BlockMap nb → Fin nb → Option (BlockMap nb × A)
  | 0, st, bb =>
    match (st bb).LOState with
    | .IsKnown => some (st, alg.onKnown (st bb))
    | .IsComputingLiveOut => some (st, alg.onComputing)
    | .IsUnknown =>
      match alg.early (st bb) with
      | some ba => some (Function.update st bb ba.1, ba.2)
      | none => none
  | fuel' + 1, st, bb =>
    match (st bb).LOState with
    | .IsKnown => some (st, alg.onKnown (st bb))
    | .IsComputingLiveOut => some (st, alg.onComputing)
    | .IsUnknown =>
      match alg.early (st bb) with
      | some ba => some (Function.update st bb ba.1, ba.2)
      | none =>
        match foldPreds (liveOutBlock alg cfg fuel') alg.mergeA
            (Function.update st bb
              { st bb with LOState := LiveOutStateTy.IsComputingLiveOut })
            (cfg.preds bb) (alg.initAcc (st bb)) with
        | none => none
        | some sa =>
          some (Function.update sa.1 bb (alg.finalize (sa.1 bb) sa.2).1,
                (alg.finalize (sa.1 bb) sa.2).2)

/-! ### State-shape lemmas for the live-out recursion -/

/-- What one live-out query does to the block-state map: blocks that are
not `IsUnknown` are untouched, and no block is left `IsComputingLiveOut`
that was not already so (the `IsComputingLiveOut` marks are scoped to
the call). -/
def StatePres {nb : Nat} (st st' : BlockMap nb) : Prop :=
  (∀ b, (st b).LOState ≠ LiveOutStateTy.IsUnknown → st' b = st b) ∧
  (∀ b, (st b).LOState = LiveOutStateTy.IsUnknown →
    (st' b).LOState ≠ LiveOutStateTy.IsComputingLiveOut)

lemma statePres_refl {nb : Nat} (st : BlockMap nb) : StatePres st st := by
  constructor
  · intro _ _; rfl
  · intro b hb
    rw [hb]
    intro hc; cases hc

lemma statePres_trans {nb : Nat} {s1 s2 s3 : BlockMap nb}
    (h12 : StatePres s1 s2) (h23 : StatePres s2 s3) : StatePres s1 s3 := by
  constructor
  · intro b hb
    have he := h12.1 b hb
    have hb2 : (s2 b).LOState ≠ LiveOutStateTy.IsUnknown := by rw [he]; exact hb
    rw [h23.1 b hb2, he]
  · intro b hb
    by_cases hb2 : (s2 b).LOState = LiveOutStateTy.IsUnknown
    · exact h23.2 b hb2
    · rw [h23.1 b hb2]
      exact h12.2 b hb

lemma statePres_computing_iff {nb : Nat} {st st' : BlockMap nb}
    (h : StatePres st st') (b : Fin nb) :
    ((st' b).LOState = LiveOutStateTy.IsComputingLiveOut ↔
      (st b).LOState = LiveOutStateTy.IsComputingLiveOut) := by
  constructor
  · intro hb
    by_cases hu : (st b).LOState = LiveOutStateTy.IsUnknown
    · exact absurd hb (h.2 b hu)
    · rw [h.1 b hu] at hb
      exact hb
  · intro hb
    have hu : (st b).LOState ≠ LiveOutStateTy.IsUnknown := by
      rw [hb]; intro hc; cases hc
    rw [h.1 b hu]
    exact hb

/-- Both the `early` result and the `finalize` result leave the block's
`LOState` away from `IsComputingLiveOut` (in the source: `IsKnown` via
`setBlockAvailability`, or the revert to `IsUnknown`). -/
def AlgLOOk {A : Type} (alg : LiveOutAlg A) : Prop :=
  (∀ bs ba, alg.early bs = some ba →
    ba.1.LOState ≠ LiveOutStateTy.IsComputingLiveOut) ∧
  (∀ bs acc, (alg.finalize bs acc).1.LOState ≠ LiveOutStateTy.IsComputingLiveOut)

lemma foldPreds_statePres {nb : Nat} {A : Type}
    {f : BlockMap nb → Fin nb → Option (BlockMap nb × A)} {mergeA : A → A → A}
    (hf : ∀ s b s' r, f s b = some (s', r) → StatePres s s') :
    ∀ (ps : List (Fin nb)) (st : BlockMap nb) (acc : A) (st' : BlockMap nb) (acc' : A),
      foldPreds f mergeA st ps acc = some (st', acc') → StatePres st st' := by
  intro ps
  induction ps with
  | nil =>
    intro st acc st' acc' h
    rw [foldPreds, Option.some_inj] at h
    have h1 : st = st' := congrArg Prod.fst h
    rw [← h1]
    exact statePres_refl st
  | cons p rest ih =>
    intro st acc st' acc' h
    rw [foldPreds] at h
    rcases hfp : f st p with _ | sr
    · rw [hfp] at h
      exact Option.noConfusion h
    · rw [hfp] at h
      exact statePres_trans (hf st p sr.1 sr.2 (by rw [hfp]))
        (ih sr.1 (mergeA acc sr.2) st' acc' h)

lemma liveOutBlock_statePres {nb : Nat} {A : Type} (alg : LiveOutAlg A)
    (cfg : DataflowCFG nb) (hok : AlgLOOk alg) :
    ∀ (fuel : Nat) (st : BlockMap nb) (bb : Fin nb) (st' : BlockMap nb) (r : A),
      liveOutBlock alg cfg fuel st bb = some (st', r) → StatePres st st' := by
  intro fuel
  induction fuel with
  | zero =>
    intro st bb st' r h
    rw [liveOutBlock] at h
    rcases hlo : (st bb).LOState with _ | _ | _ <;> rw [hlo] at h
    · rcases hearly : alg.early (st bb) with _ | ba <;> rw [hearly] at h
      · exact Option.noConfusion h
      · rw [Option.some_inj] at h
        have h1 : Function.update st bb ba.1 = st' := congrArg Prod.fst h
        rw [← h1]
        constructor
        · intro b hb
          have hne : b ≠ bb := fun hbe => hb (by rw [hbe]; exact hlo)
          rw [Function.update_noteq hne]
        · intro b hb
          by_cases hbe : b = bb
          · subst hbe
            rw [Function.update_same]
            exact hok.1 (st b) ba hearly
          · rw [Function.update_noteq hbe, hb]
            intro hc; cases hc
    · rw [Option.some_inj] at h
      have h1 : st = st' := congrArg Prod.fst h
      rw [← h1]; exact statePres_refl st
    · rw [Option.some_inj] at h
      have h1 : st = st' := congrArg Prod.fst h
      rw [← h1]; exact statePres_refl st
  | succ fuel' ih =>
    intro st bb st' r h
    rw [liveOutBlock] at h
    rcases hlo : (st bb).LOState with _ | _ | _ <;> rw [hlo] at h
    · rcases hearly : alg.early (st bb) with _ | ba <;> rw [hearly] at h
      · rcases hfp : foldPreds (liveOutBlock alg cfg fuel') alg.mergeA
            (Function.update st bb
              { st bb with LOState := LiveOutStateTy.IsComputingLiveOut })
            (cfg.preds bb) (alg.initAcc (st bb)) with _ | sa <;> rw [hfp] at h
        · exact Option.noConfusion h
        · rw [Option.some_inj] at h
          have h1 : Function.update sa.1 bb (alg.finalize (sa.1 bb) sa.2).1 = st' :=
            congrArg Prod.fst h
          have hpres := foldPreds_statePres
            (fun s b s' r' hcall => ih s b s' r' hcall)
            (cfg.preds bb) _ (alg.initAcc (st bb)) sa.1 sa.2 hfp
          rw [← h1]
          constructor
          · intro b hb
            have hne : b ≠ bb := fun hbe => hb (by rw [hbe]; exact hlo)
            rw [Function.update_noteq hne]
            have hb1 : ((Function.update st bb
                { st bb with LOState := LiveOutStateTy.IsComputingLiveOut }) b).LOState
                ≠ LiveOutStateTy.IsUnknown := by
              rw [Function.update_noteq hne]; exact hb
            rw [hpres.1 b hb1, Function.update_noteq hne]
          · intro b hb
            by_cases hbe : b = bb
            · subst hbe
              rw [Function.update_same]
              exact hok.2 (sa.1 b) sa.2
            · rw [Function.update_noteq hbe]
              have hb1 : ((Function.update st bb
                  { st bb with LOState := LiveOutStateTy.IsComputingLiveOut }) b).LOState
                  = LiveOutStateTy.IsUnknown := by
                rw [Function.update_noteq hbe]; exact hb
              exact hpres.2 b hb1
      · rw [Option.some_inj] at h
        have h1 : Function.update st bb ba.1 = st' := congrArg Prod.fst h
        rw [← h1]
        constructor
        · intro b hb
          have hne : b ≠ bb := fun hbe => hb (by rw [hbe]; exact hlo)
          rw [Function.update_noteq hne]
        · intro b hb
          by_cases hbe : b = bb
          · subst hbe
            rw [Function.update_same]
            exact hok.1 (st b) ba hearly
          · rw [Function.update_noteq hbe, hb]
            intro hc; cases hc
    · rw [Option.some_inj] at h
      have h1 : st = st' := congrArg Prod.fst h
      rw [← h1]; exact statePres_refl st
    · rw [Option.some_inj] at h
      have h1 : st = st' := congrArg Prod.fst h
      rw [← h1]; exact statePres_refl st

/-- Number of blocks not currently marked `IsComputingLiveOut`: the
termination measure of the live-out recursion (the C++ call stack only
ever holds distinct blocks in that state). -/
def countNotComputing {nb : Nat} (st : BlockMap nb) : Nat :=
  (Finset.univ.filter fun b : Fin nb =>
    (st b).LOState ≠ LiveOutStateTy.IsComputingLiveOut).card

lemma statePres_count {nb : Nat} {st st' : BlockMap nb} (h : StatePres st st') :
    countNotComputing st' = countNotComputing st := by
  unfold countNotComputing
  congr 1
  apply Finset.filter_congr
  intro b _
  exact not_congr (statePres_computing_iff h b)

lemma countNotComputing_update {nb : Nat} (st : BlockMap nb) (bb : Fin nb)
    (hun : (st bb).LOState ≠ LiveOutStateTy.IsComputingLiveOut)
    (bs : LiveOutBlockState) (hbs : bs.LOState = LiveOutStateTy.IsComputingLiveOut) :
    countNotComputing (Function.update st bb bs) + 1 = countNotComputing st := by
  unfold countNotComputing
  have hmem : bb ∈ Finset.univ.filter fun b : Fin nb =>
      (st b).LOState ≠ LiveOutStateTy.IsComputingLiveOut := by
    simp [hun]
  have hfe : (Finset.univ.filter fun b : Fin nb =>
      ((Function.update st bb bs) b).LOState ≠ LiveOutStateTy.IsComputingLiveOut) =
      (Finset.univ.filter fun b : Fin nb =>
        (st b).LOState ≠ LiveOutStateTy.IsComputingLiveOut).erase bb := by
    ext x
    simp only [Finset.mem_filter, Finset.mem_erase, Finset.mem_univ, true_and]
    by_cases hx : x = bb
    · subst hx
      rw [Function.update_same]
      simp [hbs]
    · rw [Function.update_noteq hx]
      simp [hx]
  rw [hfe, Finset.card_erase_of_mem hmem]
  have hpos : 0 < (Finset.univ.filter fun b : Fin nb =>
      (st b).LOState ≠ LiveOutStateTy.IsComputingLiveOut).card :=
    Finset.card_pos.mpr ⟨bb, hmem⟩
  omega

lemma countNotComputing_le {nb : Nat} (st : BlockMap nb) : countNotComputing st ≤ nb := by
  unfold countNotComputing
  calc (Finset.univ.filter fun b : Fin nb =>
      (st b).LOState ≠ LiveOutStateTy.IsComputingLiveOut).card
      ≤ (Finset.univ : Finset (Fin nb)).card := Finset.card_filter_le _ _
    _ = nb := by simp

lemma foldPreds_isSome {nb : Nat} {A : Type}
    (f : BlockMap nb → Fin nb → Option (BlockMap nb × A)) (mergeA : A → A → A)
    (n : Nat)
    (hpres : ∀ s b s' r, f s b = some (s', r) → StatePres s s')
    (hsuff : ∀ s b, countNotComputing s < n → (f s b).isSome = true) :
    ∀ (ps : List (Fin nb)) (st : BlockMap nb) (acc : A),
      countNotComputing st < n → (foldPreds f mergeA st ps acc).isSome = true := by
  intro ps
  induction ps with
  | nil =>
    intro st acc _
    rw [foldPreds]
    rfl
  | cons p rest ih =>
    intro st acc hc
    have hs := hsuff st p hc
    rcases hfp : f st p with _ | sr
    · rw [hfp] at hs; cases hs
    · have hcount := statePres_count (hpres st p sr.1 sr.2 (by rw [hfp]))
      rw [foldPreds, hfp]
      exact ih sr.1 (mergeA acc sr.2) (by omega)

lemma liveOutBlock_isSome {nb : Nat} {A : Type} (alg : LiveOutAlg A)
    (cfg : DataflowCFG nb) (hok : AlgLOOk alg) :
    ∀ (fuel : Nat) (st : BlockMap nb) (bb : Fin nb),
      countNotComputing st < fuel → (liveOutBlock alg cfg fuel st bb).isSome = true := by
  intro fuel
  induction fuel with
  | zero =>
    intro st bb hc
    exact absurd hc (Nat.not_lt_zero _)
  | succ fuel' ih =>
    intro st bb hc
    rw [liveOutBlock]
    rcases hlo : (st bb).LOState with _ | _ | _
    · rcases hearly : alg.early (st bb) with _ | ba
      · have hun : (st bb).LOState ≠ LiveOutStateTy.IsComputingLiveOut := by
          rw [hlo]; intro hc2; cases hc2
        have hcount := countNotComputing_update st bb hun
          { st bb with LOState := LiveOutStateTy.IsComputingLiveOut } rfl
        have hfs := foldPreds_isSome (liveOutBlock alg cfg fuel') alg.mergeA fuel'
          (fun s b s' r' hcall => liveOutBlock_statePres alg cfg hok fuel' s b s' r' hcall)
          (fun s b hcnt => ih s b hcnt)
          (cfg.preds bb)
          (Function.update st bb
            { st bb with LOState := LiveOutStateTy.IsComputingLiveOut })
          (alg.initAcc (st bb)) (by omega)
        rcases hfp : foldPreds (liveOutBlock alg cfg fuel') alg.mergeA
            (Function.update st bb
              { st bb with LOState := LiveOutStateTy.IsComputingLiveOut })
            (cfg.preds bb) (alg.initAcc (st bb)) with _ | sa
        · rw [hfp] at hfs; cases hfs
        · rfl
      · rfl
    · rfl
    · rfl

/-- `getLiveOut1` (DefiniteInitialization.cpp:1521-1572) as an instance
of the generic recursion: an `IsKnown` block returns `getAvailability(0)`;
an `IsComputingLiveOut` block contributes `None`; the local shortcut
caches and returns when the locally known value of element 0 is `Yes`;
the accumulator starts from `getAvailabilityConditional(0)` and merges
predecessors with `mergeKinds`; finalization caches via
`setBlockAvailability1` when the result is defined and reverts the block
to `IsUnknown` otherwise. -/
def liveOut1Alg : LiveOutAlg (Option DIKind) where
  onKnown bs := some (bs.Availability.get 0)
  onComputing := none
  early bs :=
    if bs.Availability.getConditional 0 = some DIKind.yes then
      some ({ bs with
                Availability := bs.Availability.setK 0 DIKind.yes
                LOState := LiveOutStateTy.IsKnown }, some DIKind.yes)
    else none
  initAcc bs := bs.Availability.getConditional 0
  mergeA := mergeKinds
  finalize bs r :=
    match r with
    | some K => ({ bs with
                     Availability := bs.Availability.setK 0 K
                     LOState := LiveOutStateTy.IsKnown }, some K)
    | none => ({ bs with LOState := LiveOutStateTy.IsUnknown }, none)

/-- The local-Yes override loop of `getLiveOutN`
(DefiniteInitialization.cpp:1613-1618): anything the initial pass knew
as a definition stays a definition. -/
def applyLocalYes (LocalAV Result : AvailabilitySet) (NumElements : Nat) :
    AvailabilitySet :=
  (List.range NumElements).foldl
    (fun r i => if LocalAV.getConditional i = some DIKind.yes
                then r.setK i DIKind.yes else r)
    Result

/-- `getLiveOutN` (DefiniteInitialization.cpp:1585-1634) as an instance
of the generic recursion: an `IsKnown` block returns its cached
availability set; an `IsComputingLiveOut` block contributes a fresh
all-Unknown set; there is no local shortcut; the accumulator starts
from a fresh all-Unknown set and merges predecessors with `mergeIn`;
finalization applies the local-Yes overrides and caches via
`setBlockAvailability` unless the result still contains unknown
elements, in which case the block reverts to `IsUnknown`. -/
def liveOutNAlg (NumElements : Nat) : LiveOutAlg AvailabilitySet where
  onKnown bs := bs.Availability
  onComputing := AvailabilitySet.init NumElements
  early _ := none
  initAcc _ := AvailabilitySet.init NumElements
  mergeA acc r := acc.mergeIn r
  finalize bs acc :=
    if (applyLocalYes bs.Availability acc NumElements).containsUnknownElements then
      ({ bs with LOState := LiveOutStateTy.IsUnknown },
       applyLocalYes bs.Availability acc NumElements)
    else
      ({ bs with
           Availability := applyLocalYes bs.Availability acc NumElements
           LOState := LiveOutStateTy.IsKnown },
       applyLocalYes bs.Availability acc NumElements)

def getLiveOut1 {nb : Nat} (cfg : DataflowCFG nb) (fuel : Nat) (st : BlockMap nb)
    (bb : Fin nb) : Option (BlockMap nb × Option DIKind) :=
  liveOutBlock liveOut1Alg cfg fuel st bb

/-- `getPredsLiveOut1` (DefiniteInitialization.cpp:1574-1580). -/
def getPredsLiveOut1 {nb : Nat} (cfg : DataflowCFG nb) (fuel : Nat) (st : BlockMap nb)
    (ps : List (Fin nb)) (Result : Option DIKind) :
    Option (BlockMap nb × Option DIKind) :=
  foldPreds (liveOutBlock liveOut1Alg cfg fuel) mergeKinds st ps Result

def getLiveOutN {nb : Nat} (cfg : DataflowCFG nb) (NumElements fuel : Nat)
    (st : BlockMap nb) (bb : Fin nb) : Option (BlockMap nb × AvailabilitySet) :=
  liveOutBlock (liveOutNAlg NumElements) cfg fuel st bb

/-- `getPredsLiveOutN` (DefiniteInitialization.cpp:1636-1642). -/
def getPredsLiveOutN {nb : Nat} (cfg : DataflowCFG nb) (NumElements fuel : Nat)
    (st : BlockMap nb) (ps : List (Fin nb)) (Result : AvailabilitySet) :
    Option (BlockMap nb × AvailabilitySet) :=
  foldPreds (liveOutBlock (liveOutNAlg NumElements) cfg fuel) (fun a r => a.mergeIn r)
    st ps Result

lemma algLOOk_liveOut1 : AlgLOOk liveOut1Alg := by
  constructor
  · intro bs ba h
    simp only [liveOut1Alg] at h
    split at h
    · rw [Option.some_inj] at h
      rw [← h]
      exact fun hc => LiveOutStateTy.noConfusion hc
    · exact Option.noConfusion h
  · intro bs acc
    rcases acc with _ | K <;> simp [liveOut1Alg]

lemma algLOOk_liveOutN (NumElements : Nat) : AlgLOOk (liveOutNAlg NumElements) := by
  constructor
  · intro bs ba h
    simp [liveOutNAlg] at h
  · intro bs acc
    simp only [liveOutNAlg]
    split <;> simp

/-- C4: on any finite CFG every live-out query (`getLiveOut1` and
`getLiveOutN`) terminates: fuel `nb + 1` (one more than the number of
basic blocks) always suffices, because the recursion is cut by the
`IsComputingLiveOut` state and the call chain only ever holds distinct
blocks in that state; moreover `IsKnown` is terminal — a block already
`IsKnown` is never modified by a query. -/
theorem liveOut_queries_terminate :
    ∀ (nb : Nat) (cfg : DataflowCFG nb) (NumElements : Nat) (st : BlockMap nb)
      (bb : Fin nb),
      ((getLiveOut1 cfg (nb + 1) st bb).isSome = true ∧
        (getLiveOutN cfg NumElements (nb + 1) st bb).isSome = true) ∧
      ((∀ st' r, getLiveOut1 cfg (nb + 1) st bb = some (st', r) →
          ∀ b, (st b).LOState = LiveOutStateTy.IsKnown → st' b = st b) ∧
        (∀ st' r, getLiveOutN cfg NumElements (nb + 1) st bb = some (st', r) →
          ∀ b, (st b).LOState = LiveOutStateTy.IsKnown → st' b = st b)) := by
  intro nb cfg NumElements st bb
  have hcnt : countNotComputing st < nb + 1 :=
    Nat.lt_succ_of_le (countNotComputing_le st)
  refine ⟨⟨?_, ?_⟩, ?_, ?_⟩
  · exact liveOutBlock_isSome liveOut1Alg cfg algLOOk_liveOut1 (nb + 1) st bb hcnt
  · exact liveOutBlock_isSome (liveOutNAlg NumElements) cfg (algLOOk_liveOutN NumElements)
      (nb + 1) st bb hcnt
  · intro st' r h b hb
    refine (liveOutBlock_statePres liveOut1Alg cfg algLOOk_liveOut1
      (nb + 1) st bb st' r h).1 b ?_
    rw [hb]; intro hc; cases hc
  · intro st' r h b hb
    refine (liveOutBlock_statePres (liveOutNAlg NumElements) cfg
      (algLOOk_liveOutN NumElements) (nb + 1) st bb st' r h).1 b ?_
    rw [hb]; intro hc; cases hc

theorem liveOut_queries_terminate_witness :
    getLiveOut1 (⟨fun _ => []⟩ : DataflowCFG 1) (1 + 1)
        (fun _ => ⟨false, AvailabilitySet.init 1, LiveOutStateTy.IsKnown⟩) 0 =
      some ((fun _ => ⟨false, AvailabilitySet.init 1, LiveOutStateTy.IsKnown⟩ :
              BlockMap 1),
            some DIKind.yes) ∧
    ((fun _ => (⟨false, AvailabilitySet.init 1, LiveOutStateTy.IsKnown⟩ :
        LiveOutBlockState) : BlockMap 1) 0).LOState = LiveOutStateTy.IsKnown ∧
    ((fun _ => (⟨false, AvailabilitySet.init 1, LiveOutStateTy.IsKnown⟩ :
        LiveOutBlockState) : BlockMap 1) 0 =
      (fun _ => (⟨false, AvailabilitySet.init 1, LiveOutStateTy.IsKnown⟩ :
        LiveOutBlockState) : BlockMap 1) 0) :=
  ⟨by with_unfolding_all rfl, rfl,
   (liveOut_queries_terminate 1 ⟨fun _ => []⟩ 1
      (fun _ => ⟨false, AvailabilitySet.init 1, LiveOutStateTy.IsKnown⟩) 0).2.1
     (fun _ => ⟨false, AvailabilitySet.init 1, LiveOutStateTy.IsKnown⟩)
     (some DIKind.yes) (by with_unfolding_all rfl) 0 rfl⟩

/-! ## getLivenessAtInst (C3)

Source: `getLivenessAtInst` (DefiniteInitialization.cpp:1648-1750).  The
querying instruction is identified by its block `bb` and its index `idx`
in the block's instruction list; the local reverse scan walks the
instructions strictly above it.  `NonLoadUses` membership and the use's
element range are encoded on the instruction descriptor (`useInst`),
and the memory-object-defining instruction is `memDef` (also a member
of `NonLoadUses`, inserted by the constructor with index `~0U`). -/

inductive InstDesc where
  | unrelated
  | memDef
  | useInst (FirstElement NumElements : Nat)
deriving DecidableEq

/-- The reverse scan of the single-element fast path
(DefiniteInitialization.cpp:1666-1683): the first instruction in
`NonLoadUses` settles the element — `No` if it is the memory definition
itself, otherwise `Yes`. -/
def localScan1 : List InstDesc → Option DIKind
  | [] => none
  | .unrelated :: rest => localScan1 rest
  | .memDef :: _ => some DIKind.no
  | .useInst _ _ :: _ => some DIKind.yes

/-- `NeededElements.none()`. -/
def noneNeeded (NumElements : Nat) (needed : Nat → Bool) : Bool :=
  (List.range NumElements).all fun i => !needed i

/-- `NeededElements.reset(First, First+Num)`. -/
def resetRange (needed : Nat → Bool) (first num : Nat) : Nat → Bool :=
  fun i => if first ≤ i ∧ i < first + num then false else needed i

inductive ScanNResult where
  | hitMemDef (needed : Nat → Bool)
  | satisfied
  | exhausted (needed : Nat → Bool)

/-- The reverse scan of the general path
(DefiniteInitialization.cpp:1705-1735): skip unrelated instructions;
stop at the memory definition; clear a use's range from the needed set
and stop as satisfied when nothing is needed any more. -/
def localScanN (NumElements : Nat) : List InstDesc → (Nat → Bool) → ScanNResult
  | [], needed => .exhausted needed
  | .unrelated :: rest, needed => localScanN NumElements rest needed
  | .memDef :: _, needed => .hitMemDef needed
  | .useInst f n :: rest, needed =>
    if noneNeeded NumElements (resetRange needed f n) then .satisfied
    else localScanN NumElements rest (resetRange needed f n)

/-- The element indices of the window `[FirstElt, FirstElt+NumElts)`. -/
def windowIdx (FirstElt NumElts : Nat) : List Nat :=
  (List.range NumElts).map fun k => FirstElt + k

lemma mem_windowIdx (FirstElt NumElts i : Nat) :
    i ∈ windowIdx FirstElt NumElts ↔ (FirstElt ≤ i ∧ i < FirstElt + NumElts) := by
  unfold windowIdx
  rw [List.mem_map]
  constructor
  · rintro ⟨k, hk, rfl⟩
    have := List.mem_range.mp hk
    omega
  · rintro ⟨h1, h2⟩
    exact ⟨i - FirstElt, List.mem_range.mpr (by omega), by omega⟩

lemma nodup_windowIdx (FirstElt NumElts : Nat) : (windowIdx FirstElt NumElts).Nodup := by
  unfold windowIdx
  exact (List.nodup_range _).map fun a b hab => by omega

/-- `Result.set(i, NeededElements[i] ? DIKind::No : DIKind::Yes)` over
the window (DefiniteInitialization.cpp:1716-1721). -/
def setWindowAtMemDef (Result : AvailabilitySet) (FirstElt NumElts : Nat)
    (needed : Nat → Bool) : AvailabilitySet :=
  (windowIdx FirstElt NumElts).foldl
    (fun r i => r.setK i (if needed i then DIKind.no else DIKind.yes)) Result

/-- The final forcing loop of `getLivenessAtInst`
(DefiniteInitialization.cpp:1741-1748): elements that were locally
satisfied, or whose predecessor merge is still unknown, are set `Yes`. -/
def forceWindowYes (Result : AvailabilitySet) (FirstElt NumElts : Nat)
    (needed : Nat → Bool) : AvailabilitySet :=
  (windowIdx FirstElt NumElts).foldl
    (fun r i => if !needed i || (r.getConditional i).isNone
                then r.setK i DIKind.yes else r) Result

def getLivenessAtInst {nb : Nat} (cfg : DataflowCFG nb) (insts : Fin nb → List InstDesc)
    (NumElements fuel : Nat) (st : BlockMap nb) (bb : Fin nb) (idx : Nat)
    (FirstElt NumElts : Nat) : Option (BlockMap nb × AvailabilitySet) :=
  if NumElts = 0 then some (st, AvailabilitySet.init NumElements)
  else if NumElements = 1 then
    match (if (st bb).HasNonLoadUse
           then localScan1 (((insts bb).take idx).reverse) else none) with
    | some K => some (st, (AvailabilitySet.init NumElements).setK 0 K)
    | none =>
      match getPredsLiveOut1 cfg fuel st (cfg.preds bb) none with
      | none => none
      | some sr =>
        some (sr.1, (AvailabilitySet.init NumElements).set 0
          (if sr.2.isNone then some DIKind.yes else sr.2))
  else
    match (if (st bb).HasNonLoadUse
           then localScanN NumElements (((insts bb).take idx).reverse)
             (fun i => decide (FirstElt ≤ i ∧ i < FirstElt + NumElts))
           else ScanNResult.exhausted
             (fun i => decide (FirstElt ≤ i ∧ i < FirstElt + NumElts))) with
    | .hitMemDef needed =>
      some (st, setWindowAtMemDef (AvailabilitySet.init NumElements) FirstElt NumElts needed)
    | .satisfied =>
      some (st, (AvailabilitySet.init NumElements).changeUnsetElementsTo DIKind.yes)
    | .exhausted needed =>
      match getPredsLiveOutN cfg NumElements fuel st (cfg.preds bb)
          (AvailabilitySet.init NumElements) with
      | none => none
      | some sr => some (sr.1, forceWindowYes sr.2 FirstElt NumElts needed)

lemma getConditional_setWindowAtMemDef (Result : AvailabilitySet)
    (FirstElt NumElts : Nat) (needed : Nat → Bool) (i : Nat)
    (hi : FirstElt ≤ i ∧ i < FirstElt + NumElts) :
    ((setWindowAtMemDef Result FirstElt NumElts needed).getConditional i).isSome = true := by
  unfold setWindowAtMemDef
  rw [AvailabilitySet.foldl_step_pointwise
    (fun r j => r.setK j (if needed j then DIKind.no else DIKind.yes))
    (fun j _ => some (if needed j then DIKind.no else DIKind.yes)) ?hstep
    (windowIdx FirstElt NumElts) (nodup_windowIdx _ _) Result i]
  · rw [if_pos ((mem_windowIdx _ _ _).mpr hi)]
    rfl
  case hstep =>
    intro acc j j'
    by_cases hjj : j' = j
    · subst hjj
      rw [if_pos rfl]
      exact AvailabilitySet.getConditional_setK_same acc j' _
    · rw [if_neg hjj]
      exact AvailabilitySet.getConditional_setK_other acc j j' _ hjj

lemma getConditional_forceWindowYes (Result : AvailabilitySet)
    (FirstElt NumElts : Nat) (needed : Nat → Bool) (i : Nat)
    (hi : FirstElt ≤ i ∧ i < FirstElt + NumElts) :
    ((forceWindowYes Result FirstElt NumElts needed).getConditional i).isSome = true := by
  unfold forceWindowYes
  rw [AvailabilitySet.foldl_step_pointwise
    (fun r j => if !needed j || (r.getConditional j).isNone then r.setK j DIKind.yes else r)
    (fun j v => if !needed j || v.isNone then some DIKind.yes else v) ?hstep
    (windowIdx FirstElt NumElts) (nodup_windowIdx _ _) Result i]
  · rw [if_pos ((mem_windowIdx _ _ _).mpr hi)]
    rcases hv : Result.getConditional i with _ | k
    · simp
    · rcases hn : needed i with _ | _ <;> simp
  case hstep =>
    intro acc j j'
    dsimp only
    by_cases hjj : j' = j
    · subst hjj
      by_cases hc : (!needed j' || (acc.getConditional j').isNone) = true
      · rw [if_pos hc, if_pos rfl, if_pos hc]
        exact AvailabilitySet.getConditional_setK_same acc j' _
      · rw [if_neg hc, if_pos rfl, if_neg hc]
    · by_cases hc : (!needed j || (acc.getConditional j).isNone) = true
      · rw [if_pos hc, if_neg hjj]
        exact AvailabilitySet.getConditional_setK_other acc j j' _ hjj
      · rw [if_neg hc, if_neg hjj]

/-- C3: for every instruction and every non-empty element window inside
the memory object, a successful `getLivenessAtInst` query returns an
availability set in which every element of the window is defined (`No`,
`Yes` or `Partial`, never Unknown): the local scan and the memory-def
cutoff produce only defined values, and any element still unknown after
the predecessor merge is forced to `Yes`, so callers reading the result
with the unguarded `get()` never hit the Unknown branch. -/
theorem getLivenessAtInst_window_defined :
    ∀ (nb : Nat) (cfg : DataflowCFG nb) (insts : Fin nb → List InstDesc)
      (NumElements fuel : Nat) (st : BlockMap nb) (bb : Fin nb) (idx : Nat)
      (FirstElt NumElts : Nat) (st' : BlockMap nb) (res : AvailabilitySet),
      NumElts ≠ 0 → FirstElt + NumElts ≤ NumElements →
      getLivenessAtInst cfg insts NumElements fuel st bb idx FirstElt NumElts =
        some (st', res) →
      ∀ i, FirstElt ≤ i → i < FirstElt + NumElts →
        (res.getConditional i).isSome = true := by
  intro nb cfg insts NumElements fuel st bb idx FirstElt NumElts st' res h0 hle h i hi1 hi2
  unfold getLivenessAtInst at h
  rw [if_neg h0] at h
  by_cases hN1 : NumElements = 1
  · rw [if_pos hN1] at h
    have hi0 : i = 0 := by omega
    subst hi0
    rcases hscan : (if (st bb).HasNonLoadUse
        then localScan1 (((insts bb).take idx).reverse) else none) with _ | K
    · rw [hscan] at h
      rcases hp : getPredsLiveOut1 cfg fuel st (cfg.preds bb) none with _ | sr
      · rw [hp] at h
        exact Option.noConfusion h
      · rw [hp, Option.some_inj] at h
        have hres : (AvailabilitySet.init NumElements).set 0
            (if sr.2.isNone then some DIKind.yes else sr.2) = res :=
          congrArg Prod.snd h
        rw [← hres, AvailabilitySet.getConditional_set_same]
        rcases hv : sr.2 with _ | K
        · simp
        · simp
    · rw [hscan, Option.some_inj] at h
      have hres : (AvailabilitySet.init NumElements).setK 0 K = res :=
        congrArg Prod.snd h
      rw [← hres, AvailabilitySet.getConditional_setK_same]
      rfl
  · rw [if_neg hN1] at h
    rcases hscan : (if (st bb).HasNonLoadUse
        then localScanN NumElements (((insts bb).take idx).reverse)
          (fun k => decide (FirstElt ≤ k ∧ k < FirstElt + NumElts))
        else ScanNResult.exhausted
          (fun k => decide (FirstElt ≤ k ∧ k < FirstElt + NumElts)))
      with needed | _ | needed
    · rw [hscan, Option.some_inj] at h
      have hres : setWindowAtMemDef (AvailabilitySet.init NumElements) FirstElt NumElts
          needed = res := congrArg Prod.snd h
      rw [← hres]
      exact getConditional_setWindowAtMemDef _ _ _ _ i ⟨hi1, hi2⟩
    · rw [hscan, Option.some_inj] at h
      have hres : (AvailabilitySet.init NumElements).changeUnsetElementsTo DIKind.yes
          = res := congrArg Prod.snd h
      rw [← hres, AvailabilitySet.getConditional_changeUnset]
      have hmem : i ∈ List.range (AvailabilitySet.init NumElements).size := by
        rw [List.mem_range]
        show i < NumElements
        omega
      rw [if_pos hmem, AvailabilitySet.getConditional_init]
      rfl
    · rw [hscan] at h
      rcases hp : getPredsLiveOutN cfg NumElements fuel st (cfg.preds bb)
          (AvailabilitySet.init NumElements) with _ | sr
      · rw [hp] at h
        exact Option.noConfusion h
      · rw [hp, Option.some_inj] at h
        have hres : forceWindowYes sr.2 FirstElt NumElts needed = res :=
          congrArg Prod.snd h
        rw [← hres]
        exact getConditional_forceWindowYes _ _ _ _ i ⟨hi1, hi2⟩

theorem getLivenessAtInst_window_defined_witness :
    getLivenessAtInst (⟨fun _ => []⟩ : DataflowCFG 1) (fun _ => [InstDesc.memDef]) 2 0
        (fun _ => ⟨true, AvailabilitySet.init 2, LiveOutStateTy.IsUnknown⟩) 0 1 0 1 =
      some ((fun _ => ⟨true, AvailabilitySet.init 2, LiveOutStateTy.IsUnknown⟩ :
              BlockMap 1),
        setWindowAtMemDef (AvailabilitySet.init 2) 0 1
          (fun i => decide (0 ≤ i ∧ i < 0 + 1))) ∧
    ((setWindowAtMemDef (AvailabilitySet.init 2) 0 1
        (fun i => decide (0 ≤ i ∧ i < 0 + 1))).getConditional 0).isSome = true :=
  ⟨by with_unfolding_all rfl,
   getLivenessAtInst_window_defined 1 ⟨fun _ => []⟩ (fun _ => [InstDesc.memDef]) 2 0
     (fun _ => ⟨true, AvailabilitySet.init 2, LiveOutStateTy.IsUnknown⟩) 0 1 0 1
     (fun _ => ⟨true, AvailabilitySet.init 2, LiveOutStateTy.IsUnknown⟩)
     (setWindowAtMemDef (AvailabilitySet.init 2) 0 1 (fun i => decide (0 ≤ i ∧ i < 0 + 1)))
     (by decide) (by decide) (by with_unfolding_all rfl) 0 (by decide) (by decide)⟩

/-! ## The IsKnown invariant (C10)

Sources: `setBlockAvailability` (DefiniteInitialization.cpp:295-300,
which asserts `!AV.containsUnknownElements()`), the checker constructor
(402-449), and the caching decision of `getLiveOutN` (1620-1632). -/

/-- A block state is good when, if its live-out state is `IsKnown`, its
cached availability set contains no Unknown element. -/
def GoodBS (bs : LiveOutBlockState) : Prop :=
  bs.LOState = LiveOutStateTy.IsKnown →
    bs.Availability.containsUnknownElements = false

def GoodState {nb : Nat} (st : BlockMap nb) : Prop := ∀ b, GoodBS (st b)

lemma goodState_update {nb : Nat} {st : BlockMap nb} (h : GoodState st) (bb : Fin nb)
    {bs : LiveOutBlockState} (hbs : GoodBS bs) :
    GoodState (Function.update st bb bs) := by
  intro b
  by_cases hbe : b = bb
  · subst hbe
    rw [Function.update_same]
    exact hbs
  · rw [Function.update_noteq hbe]
    exact h b

/-- Both the `early` result and the `finalize` result respect the
Known-implies-defined invariant. -/
def AlgGoodOk {A : Type} (alg : LiveOutAlg A) : Prop :=
  (∀ bs ba, alg.early bs = some ba → GoodBS ba.1) ∧
  (∀ bs acc, GoodBS (alg.finalize bs acc).1)

lemma foldPreds_goodState {nb : Nat} {A : Type}
    {f : BlockMap nb → Fin nb → Option (BlockMap nb × A)} {mergeA : A → A → A}
    (hf : ∀ s b s' r, f s b = some (s', r) → GoodState s → GoodState s') :
    ∀ (ps : List (Fin nb)) (st : BlockMap nb) (acc : A) (st' : BlockMap nb) (acc' : A),
      foldPreds f mergeA st ps acc = some (st', acc') → GoodState st → GoodState st' := by
  intro ps
  induction ps with
  | nil =>
    intro st acc st' acc' h hg
    rw [foldPreds, Option.some_inj] at h
    have h1 : st = st' := congrArg Prod.fst h
    rw [← h1]
    exact hg
  | cons p rest ih =>
    intro st acc st' acc' h hg
    rw [foldPreds] at h
    rcases hfp : f st p with _ | sr
    · rw [hfp] at h
      exact Option.noConfusion h
    · rw [hfp] at h
      exact ih sr.1 (mergeA acc sr.2) st' acc' h (hf st p sr.1 sr.2 (by rw [hfp]) hg)

lemma liveOutBlock_goodState {nb : Nat} {A : Type} (alg : LiveOutAlg A)
    (cfg : DataflowCFG nb) (hgood : AlgGoodOk alg) :
    ∀ (fuel : Nat) (st : BlockMap nb) (bb : Fin nb) (st' : BlockMap nb) (r : A),
      liveOutBlock alg cfg fuel st bb = some (st', r) → GoodState st → GoodState st' := by
  intro fuel
  induction fuel with
  | zero =>
    intro st bb st' r h hg
    rw [liveOutBlock] at h
    rcases hlo : (st bb).LOState with _ | _ | _ <;> rw [hlo] at h
    · rcases hearly : alg.early (st bb) with _ | ba <;> rw [hearly] at h
      · exact Option.noConfusion h
      · rw [Option.some_inj] at h
        have h1 : Function.update st bb ba.1 = st' := congrArg Prod.fst h
        rw [← h1]
        exact goodState_update hg bb (hgood.1 (st bb) ba hearly)
    · rw [Option.some_inj] at h
      have h1 : st = st' := congrArg Prod.fst h
      rw [← h1]; exact hg
    · rw [Option.some_inj] at h
      have h1 : st = st' := congrArg Prod.fst h
      rw [← h1]; exact hg
  | succ fuel' ih =>
    intro st bb st' r h hg
    rw [liveOutBlock] at h
    rcases hlo : (st bb).LOState with _ | _ | _ <;> rw [hlo] at h
    · rcases hearly : alg.early (st bb) with _ | ba <;> rw [hearly] at h
      · rcases hfp : foldPreds (liveOutBlock alg cfg fuel') alg.mergeA
            (Function.update st bb
              { st bb with LOState := LiveOutStateTy.IsComputingLiveOut })
            (cfg.preds bb) (alg.initAcc (st bb)) with _ | sa <;> rw [hfp] at h
        · exact Option.noConfusion h
        · rw [Option.some_inj] at h
          have h1 : Function.update sa.1 bb (alg.finalize (sa.1 bb) sa.2).1 = st' :=
            congrArg Prod.fst h
          have hg1 : GoodState (Function.update st bb
              { st bb with LOState := LiveOutStateTy.IsComputingLiveOut }) := by
            refine goodState_update hg bb ?_
            intro hc
            exact absurd hc (fun hcc => LiveOutStateTy.noConfusion hcc)
          have hg2 := foldPreds_goodState
            (fun s b s' r' hcall => ih s b s' r' hcall)
            (cfg.preds bb) _ (alg.initAcc (st bb)) sa.1 sa.2 hfp hg1
          rw [← h1]
          exact goodState_update hg2 bb (hgood.2 (sa.1 bb) sa.2)
      · rw [Option.some_inj] at h
        have h1 : Function.update st bb ba.1 = st' := congrArg Prod.fst h
        rw [← h1]
        exact goodState_update hg bb (hgood.1 (st bb) ba hearly)
    · rw [Option.some_inj] at h
      have h1 : st = st' := congrArg Prod.fst h
      rw [← h1]; exact hg
    · rw [Option.some_inj] at h
      have h1 : st = st' := congrArg Prod.fst h
      rw [← h1]; exact hg

lemma algGoodOk_liveOutN (NumElements : Nat) : AlgGoodOk (liveOutNAlg NumElements) := by
  constructor
  · intro bs ba h
    simp [liveOutNAlg] at h
  · intro bs acc
    simp only [liveOutNAlg]
    split
    · intro hc
      exact absurd hc (fun hcc => LiveOutStateTy.noConfusion hcc)
    · rename_i hcond
      intro _
      show (applyLocalYes bs.Availability acc NumElements).containsUnknownElements = false
      exact Bool.eq_false_iff.mpr hcond

/-! ### The checker constructor (DefiniteInitialization.cpp:402-449) -/

/-- Modelled from the spec: the use kinds delivered by the external DI
memory-use collector (spec §3: `kind ∈ {Load, IndirectIn, InOutUse,
Initialization, Assign, InitOrAssign, PartialStore, Escape, SuperInit,
SelfInit}`); `DIUseKind` is declared in DIMemoryUseCollector.h, which is
not among the sources.  The constructor only distinguishes `Load` and
`Escape` from the other kinds. -/
inductive DIUseKind where
  | Load
  | IndirectIn
  | InOutUse
  | Initialization
  | Assign
  | InitOrAssign
  | PartialStore
  | Escape
  | SuperInit
  | SelfInit
deriving DecidableEq

/-- A use as seen by the constructor: its instruction's parent block and
its element range. -/
structure CtorUse (nb : Nat) where
  bb : Fin nb
  Kind : DIUseKind
  FirstElement : Nat
  NumElements : Nat

/-- `LiveOutBlockState(unsigned NumElements)`
(DefiniteInitialization.cpp:278-281). -/
def LiveOutBlockState.initBS (NumElements : Nat) : LiveOutBlockState :=
  ⟨false, AvailabilitySet.init NumElements, LiveOutStateTy.IsUnknown⟩

/-- `markAvailable` (DefiniteInitialization.cpp:309-320): nothing for an
empty availability set; otherwise the peeled first `set` followed by the
loop over the remaining touched elements.  (For `NumElements = 0` the
source's unsigned loop `for (i = 1; i != 0; ++i)` does not terminate;
that out-of-contract case is modelled as the empty loop.) -/
def markAvailable (bs : LiveOutBlockState) (FirstElement NumElements : Nat) :
    LiveOutBlockState :=
  if bs.Availability.emptyB then bs
  else
    { bs with Availability :=
        ((List.range' (FirstElement + 1) (NumElements - 1)).foldl
          (fun av i => av.setK i DIKind.yes)
          (bs.Availability.setK FirstElement DIKind.yes)) }

/-- One iteration of the constructor's use loop
(DefiniteInitialization.cpp:410-434): skip loads and escapes; set
`HasNonLoadUse`, mark the use's range available, and mark the block
`IsKnown` when all elements are now `Yes`. -/
def ctorProcessUse {nb : Nat} (st : BlockMap nb) (u : CtorUse nb) : BlockMap nb :=
  if u.Kind = DIUseKind.Load ∨ u.Kind = DIUseKind.Escape then st
  else
    Function.update st u.bb
      (if (markAvailable { st u.bb with HasNonLoadUse := true }
            u.FirstElement u.NumElements).Availability.isAllYes then
        { markAvailable { st u.bb with HasNonLoadUse := true }
            u.FirstElement u.NumElements with LOState := LiveOutStateTy.IsKnown }
      else
        markAvailable { st u.bb with HasNonLoadUse := true }
          u.FirstElement u.NumElements)

/-- The `LifetimeChecker` constructor (DefiniteInitialization.cpp:402-449)
restricted to its effect on `PerBlockInfo`: process every use, then mark
the memory-defining block: `HasNonLoadUse` true, all unset elements
changed to `No`, live-out state `IsKnown`. -/
def lifetimeCheckerInit {nb : Nat} (NumElements : Nat) (Uses : List (CtorUse nb))
    (memBB : Fin nb) : BlockMap nb :=
  Function.update
    (Uses.foldl ctorProcessUse (fun _ => LiveOutBlockState.initBS NumElements))
    memBB
    { (Uses.foldl ctorProcessUse (fun _ => LiveOutBlockState.initBS NumElements)) memBB with
        HasNonLoadUse := true
        Availability := ((Uses.foldl ctorProcessUse
            (fun _ => LiveOutBlockState.initBS NumElements)) memBB
          ).Availability.changeUnsetElementsTo DIKind.no
        LOState := LiveOutStateTy.IsKnown }

lemma containsUnknown_foldl_setKYes :
    ∀ (l : List Nat) (a : AvailabilitySet), a.containsUnknownElements = false →
      ((l.foldl (fun av i => av.setK i DIKind.yes) a).containsUnknownElements = false) := by
  intro l
  induction l with
  | nil => intro a h; exact h
  | cons i t ih =>
    intro a h
    simp only [List.foldl_cons]
    exact ih _ (AvailabilitySet.containsUnknown_setK a i DIKind.yes h)

lemma markAvailable_LOState (bs : LiveOutBlockState) (f n : Nat) :
    (markAvailable bs f n).LOState = bs.LOState := by
  unfold markAvailable
  split <;> rfl

lemma containsUnknown_markAvailable (bs : LiveOutBlockState) (f n : Nat)
    (h : bs.Availability.containsUnknownElements = false) :
    (markAvailable bs f n).Availability.containsUnknownElements = false := by
  unfold markAvailable
  split
  · exact h
  · exact containsUnknown_foldl_setKYes _ _
      (AvailabilitySet.containsUnknown_setK _ _ _ h)

lemma goodState_ctorProcessUse {nb : Nat} (st : BlockMap nb) (u : CtorUse nb)
    (h : GoodState st) : GoodState (ctorProcessUse st u) := by
  unfold ctorProcessUse
  split
  · exact h
  · split
    · rename_i hall
      refine goodState_update h u.bb ?_
      intro _
      show (markAvailable { st u.bb with HasNonLoadUse := true }
        u.FirstElement u.NumElements).Availability.containsUnknownElements = false
      exact AvailabilitySet.isAllYes_no_unknown _ hall
    · refine goodState_update h u.bb ?_
      intro hk
      rw [markAvailable_LOState] at hk
      exact containsUnknown_markAvailable _ _ _ (h u.bb hk)

lemma goodState_ctorFold {nb : Nat} :
    ∀ (Uses : List (CtorUse nb)) (st : BlockMap nb), GoodState st →
      GoodState (Uses.foldl ctorProcessUse st) := by
  intro Uses
  induction Uses with
  | nil => intro st h; exact h
  | cons u t ih =>
    intro st h
    simp only [List.foldl_cons]
    exact ih _ (goodState_ctorProcessUse st u h)

/-- C10: whenever a block's live-out state is `IsKnown`, its cached
availability set contains no Unknown element: the invariant holds of the
state the `LifetimeChecker` constructor builds (all-Yes blocks and the
memory-defining block, whose unset elements are changed to `No`), and it
is preserved by every `getLiveOutN` query, which only caches a result
after checking it contains no unknown elements and otherwise reverts the
block to `IsUnknown`. -/
theorem known_blocks_have_no_unknown_elements :
    (∀ (nb NumElements : Nat) (Uses : List (CtorUse nb)) (memBB : Fin nb),
       GoodState (lifetimeCheckerInit NumElements Uses memBB)) ∧
    (∀ (nb : Nat) (cfg : DataflowCFG nb) (NumElements fuel : Nat) (st : BlockMap nb)
       (bb : Fin nb) (st' : BlockMap nb) (r : AvailabilitySet),
       getLiveOutN cfg NumElements fuel st bb = some (st', r) →
       GoodState st → GoodState st') := by
  constructor
  · intro nb NumElements Uses memBB
    unfold lifetimeCheckerInit
    refine goodState_update ?_ memBB ?_
    · refine goodState_ctorFold Uses _ ?_
      intro b hc
      exact absurd hc (fun hcc => LiveOutStateTy.noConfusion hcc)
    · intro _
      exact AvailabilitySet.containsUnknown_changeUnset _ _
  · intro nb cfg NumElements fuel st bb st' r h hg
    exact liveOutBlock_goodState (liveOutNAlg NumElements) cfg
      (algGoodOk_liveOutN NumElements) fuel st bb st' r h hg

theorem known_blocks_have_no_unknown_elements_witness :
    getLiveOutN (⟨fun _ => []⟩ : DataflowCFG 1) 0 5
        (fun _ => ⟨false, AvailabilitySet.init 0, LiveOutStateTy.IsKnown⟩) 0 =
      some ((fun _ => ⟨false, AvailabilitySet.init 0, LiveOutStateTy.IsKnown⟩ :
              BlockMap 1),
            AvailabilitySet.init 0) ∧
    GoodState (fun _ => (⟨false, AvailabilitySet.init 0, LiveOutStateTy.IsKnown⟩ :
      LiveOutBlockState) : BlockMap 1) :=
  ⟨by with_unfolding_all rfl,
   known_blocks_have_no_unknown_elements.2 1 ⟨fun _ => []⟩ 0 5
     (fun _ => ⟨false, AvailabilitySet.init 0, LiveOutStateTy.IsKnown⟩) 0
     (fun _ => ⟨false, AvailabilitySet.init 0, LiveOutStateTy.IsKnown⟩)
     (AvailabilitySet.init 0)
     (by with_unfolding_all rfl)
     (fun b hc => rfl)⟩
